import Mathlib

/-!
Verification of the WCS python client's XML-parsing and CRS-normalisation core
(`wcs/parser.py` and `wcs/model.py`) against its natural-language specification.

The python code is shallowly embedded: python `str` is modelled as `List Char`,
python `int` as `Int`, python `float` as an exact-rational idealisation
(`PyFloat`), `datetime` as a record, and exceptions as an `Except PyErr`
result.  Behaviour of the standard-library helpers the code calls
(`urllib.parse.urlparse` / `parse_qs`, `int()`, `float()`,
`datetime.fromisoformat`) is translated from CPython 3.11 (the test-suite
requires ≥ 3.11: it expects `fromisoformat` to accept a trailing `Z`).
-/

set_option maxRecDepth 4000

namespace Wcs

/-- Python strings are modelled as lists of unicode characters. -/
abbrev PyStr := List Char

/-- Embed a Lean string literal as a python string. -/
def pys (s : String) : PyStr := s.toList

/-- Python `str.isspace` / whitespace used by `str.split()` and `str.strip()`
(the unicode whitespace code points). -/
def isPySpace (c : Char) : Bool :=
  (9 ≤ c.toNat && c.toNat ≤ 13) || c == ' ' ||
  (28 ≤ c.toNat && c.toNat ≤ 31) || c.toNat == 133 || c.toNat == 160 ||
  c.toNat == 0x1680 || (0x2000 ≤ c.toNat && c.toNat ≤ 0x200a) ||
  c.toNat == 0x2028 || c.toNat == 0x2029 || c.toNat == 0x202f ||
  c.toNat == 0x205f || c.toNat == 0x3000

/-- `s.lstrip(p)` -/
def pyLstrip (p : Char → Bool) (s : PyStr) : PyStr := s.dropWhile p

/-- `s.rstrip(p)` -/
def pyRstrip (p : Char → Bool) (s : PyStr) : PyStr := (s.reverse.dropWhile p).reverse

/-- `s.strip(p)` for a character class `p`. -/
def pyStrip (p : Char → Bool) (s : PyStr) : PyStr := pyRstrip p (pyLstrip p s)

/-- `s.strip()` (whitespace strip). -/
def pyStripWs (s : PyStr) : PyStr := pyStrip isPySpace s

/-- Auxiliary scanner for `str.split()` (split on whitespace runs, dropping
empty pieces); `w` is the current word, accumulated in reverse. -/
def splitWsAux : PyStr → PyStr → List PyStr
  | [], w => if w = [] then [] else [w.reverse]
  | c :: cs, w =>
    if isPySpace c then
      if w = [] then splitWsAux cs [] else w.reverse :: splitWsAux cs []
    else splitWsAux cs (c :: w)

/-- Python `s.split()` with no separator argument. -/
def pySplitWs (s : PyStr) : List PyStr := splitWsAux s []

/-- Python `s.split(sep)` for a single-character separator (keeps empty parts;
`"".split(sep) == [""]`). -/
def splitOnChar (sep : Char) : PyStr → List PyStr
  | [] => [[]]
  | c :: cs =>
    match splitOnChar sep cs with
    | [] => [[]]
    | p :: ps => if c = sep then [] :: p :: ps else (c :: p) :: ps

/-- Python `s.split(sep, 1)`: the part before the first `sep` and, when `sep`
occurs, the remainder after it. -/
def splitOnFirst (sep : Char) : PyStr → PyStr × Option PyStr
  | [] => ([], none)
  | c :: cs =>
    if c = sep then ([], some cs)
    else
      match splitOnFirst sep cs with
      | (a, b) => (c :: a, b)

/-- Boolean prefix test on character lists. -/
def isPrefixB : PyStr → PyStr → Bool
  | [], _ => true
  | _ :: _, [] => false
  | a :: as, b :: bs => a == b && isPrefixB as bs

/-- Substring containment: python `needle in hay`. -/
def containsSub (needle : PyStr) : PyStr → Bool
  | [] => needle.isEmpty
  | c :: t => isPrefixB needle (c :: t) || containsSub needle t

/-- Python `s.replace(a, b)` for single characters. -/
def replaceChar (a b : Char) (s : PyStr) : PyStr :=
  s.map (fun c => if c = a then b else c)

/-- ASCII lower-casing (python `str.lower` on the ASCII scheme characters). -/
def pyLowerAscii (s : PyStr) : PyStr := s.map Char.toLower

/-- Value of an ASCII decimal digit. -/
def digitVal? (c : Char) : Option Nat :=
  if c.isDigit then some (c.toNat - 48) else none

/-- Value of an ASCII hexadecimal digit. -/
def hexVal? (c : Char) : Option Nat :=
  if c.isDigit then some (c.toNat - 48)
  else if 'a' ≤ c && c ≤ 'f' then some (c.toNat - 87)
  else if 'A' ≤ c && c ≤ 'F' then some (c.toNat - 55)
  else none

/-- Scanner for a python digit run that may contain underscores strictly
between digits (`1_000`); `acc` is the value of the digits read so far.
Accepts the rest of the run after its first digit. -/
def usDigitsAux : PyStr → Nat → Option Nat
  | [], acc => some acc
  | '_' :: c :: cs, acc =>
    match digitVal? c with
    | some d => usDigitsAux cs (acc * 10 + d)
    | none => none
  | ['_'], _ => none
  | c :: cs, acc =>
    match digitVal? c with
    | some d => usDigitsAux cs (acc * 10 + d)
    | none => none

/-- A full python digit run: at least one digit, underscores only between
digits, consuming the whole input. -/
def usDigits : PyStr → Option Nat
  | [] => none
  | c :: cs => do
    let d ← digitVal? c
    usDigitsAux cs d

/-- Python `int(s)` (base 10): surrounding whitespace, an optional sign, then
a digit run with optional underscores between digits.  (Non-ASCII unicode
digits, which CPython also accepts, are not modelled; the parsed documents are
ASCII.) -/
def pyIntParse (s : PyStr) : Option Int :=
  match pyStripWs s with
  | '+' :: r => (usDigits r).map Int.ofNat
  | '-' :: r => (usDigits r).map (fun n => -(n : Int))
  | r => (usDigits r).map Int.ofNat

/-- Python `float` values.  Finite values carry exact rational values.
`float()` parsing is idealised as the exact decimal value (no claim settled
here depends on parse-time rounding, only on which strings `float()` accepts
and on decimal values small enough to be exact); the arithmetic of the
coefficient-generating loop, by contrast, rounds to IEEE binary64
(see `fpRoundSigned` and `numAdd`), which the termination behaviour of
`Axis.get_coefficients` does depend on. -/
inductive PyFloat where
  | finite (q : ℚ)
  | inf
  | ninf
  | nan
deriving DecidableEq

/-- Digit-run scanner for `float()` returning the digit characters (underscores
allowed strictly between digits), consuming the whole input. -/
def usDigitChars : PyStr → Option (List Char)
  | [] => none
  | c :: cs =>
    if c.isDigit then
      match cs with
      | [] => some [c]
      | '_' :: rest =>
        match usDigitChars rest with
        | some ds => some (c :: ds)
        | none => none
      | rest =>
        match usDigitChars rest with
        | some ds => some (c :: ds)
        | none => none
    else none

/-- Numeric value of a list of decimal digit characters. -/
def digitsToNat (ds : List Char) : Nat :=
  ds.foldl (fun a c => a * 10 + (c.toNat - 48)) 0

/-- The mantissa of a float literal: `D+ [. D*] | . D+` (with underscore
rules), returning its value as a rational. -/
def floatMantissa? (m : PyStr) : Option ℚ :=
  match splitOnFirst '.' m with
  | (ip, none) => (usDigitChars ip).map (fun ds => (digitsToNat ds : ℚ))
  | (ip, some fp) =>
    if ip = [] then
      (usDigitChars fp).map
        (fun fs => (digitsToNat fs : ℚ) / ((10 : ℚ) ^ fs.length))
    else
      match usDigitChars ip with
      | none => none
      | some ds =>
        if fp = [] then some ((digitsToNat ds : ℚ))
        else
          (usDigitChars fp).map
            (fun fs => (digitsToNat ds : ℚ) +
              (digitsToNat fs : ℚ) / ((10 : ℚ) ^ fs.length))

/-- The exponent of a float literal: optional sign then a digit run. -/
def floatExp? (e : PyStr) : Option Int :=
  match e with
  | '+' :: r => (usDigits r).map Int.ofNat
  | '-' :: r => (usDigits r).map (fun n => -(n : Int))
  | r => (usDigits r).map Int.ofNat

/-- The body of a float literal after the sign: infinities, nan, or a decimal
mantissa with optional exponent. -/
def floatBody? (t : PyStr) : Option PyFloat :=
  let low := pyLowerAscii t
  if low = pys "inf" || low = pys "infinity" then some .inf
  else if low = pys "nan" then some .nan
  else
    let (m, e?) :=
      match t.findIdx? (fun c => c == 'e' || c == 'E') with
      | some i => (t.take i, some (t.drop (i + 1)))
      | none => (t, none)
    match floatMantissa? m with
    | none => none
    | some q =>
      match e? with
      | none => some (.finite q)
      | some e =>
        match floatExp? e with
        | none => none
        | some k => some (.finite (q * (10 : ℚ) ^ k))

/-- Python `float(s)`: whitespace-stripped, optional sign, then `inf`,
`infinity`, `nan` (case-insensitive) or a decimal literal with optional
exponent. -/
def pyFloatParse (s : PyStr) : Option PyFloat :=
  match pyStripWs s with
  | '+' :: r => floatBody? r
  | '-' :: r =>
    match floatBody? r with
    | some .inf => some .ninf
    | some .nan => some .nan
    | some (.finite q) => some (.finite (-q))
    | some .ninf => none
    | none => none
  | r => floatBody? r

/-- A python `datetime.datetime`; `tz` is the utcoffset of the attached
`timezone` in microseconds (`none` for a naive datetime). -/
structure PyDatetime where
  year : Nat
  month : Nat
  day : Nat
  hour : Nat
  minute : Nat
  second : Nat
  microsecond : Nat
  tz : Option Int
deriving DecidableEq

/-- Gregorian leap year. -/
def isLeap (y : Nat) : Bool := y % 4 == 0 && (y % 100 != 0 || y % 400 == 0)

/-- Days in a month of the proleptic Gregorian calendar. -/
def daysInMonth (y m : Nat) : Nat :=
  if m = 2 then (if isLeap y then 29 else 28)
  else if m = 4 ∨ m = 6 ∨ m = 9 ∨ m = 11 then 30
  else 31

/-- Days before January 1 of year `y` (proleptic Gregorian ordinal count). -/
def daysBeforeYear (y : Nat) : Int :=
  let n : Int := (y : Int) - 1
  n * 365 + n / 4 - n / 100 + n / 400

/-- Days in year `y` before month `m`. -/
def daysBeforeMonth (y m : Nat) : Nat :=
  (List.range' 1 (m - 1)).foldl (fun a k => a + daysInMonth y k) 0

/-- Proleptic Gregorian ordinal of a date (0001-01-01 is ordinal 1). -/
def ymdToOrd (y m d : Nat) : Int :=
  daysBeforeYear y + (daysBeforeMonth y m : Int) + (d : Int)

/-- Month and day-of-month for a 0-based day-of-year `n` (searches the 12
months; replaces the arithmetic month estimate of CPython's `ord_to_ymd`). -/
def monthDayAux (y : Nat) : Nat → Nat → Nat → Nat × Nat
  | m, n, 0 => (m, n + 1)
  | m, n, fuel + 1 =>
    if n < daysInMonth y m then (m, n + 1)
    else monthDayAux y (m + 1) (n - daysInMonth y m) fuel

/-- Inverse of `ymdToOrd` (CPython `ord_to_ymd`).  Non-positive ordinals are
below the `datetime` range; they map to year 0, rejected by validation. -/
def ordToYmd (ordinal : Int) : Nat × Nat × Nat :=
  if ordinal ≤ 0 then (0, 1, 1)
  else
    let o := ordinal - 1
    let n400 := o / 146097
    let r400 := o % 146097
    let n100 := r400 / 36524
    let r100 := r400 % 36524
    let n4 := r100 / 1461
    let r4 := r100 % 1461
    let n1 := r4 / 365
    let nd := r4 % 365
    let year := n400 * 400 + 1 + n100 * 100 + n4 * 4 + n1
    if n1 == 4 || n100 == 4 then ((year - 1).toNat, 12, 31)
    else
      let y := year.toNat
      let (m, d) := monthDayAux y 1 nd.toNat 12
      (y, m, d)

/-- Ordinal of the Monday of ISO week 1 of year `y` (CPython
`iso_week1_monday`). -/
def isoWeek1Monday (y : Nat) : Int :=
  let firstDay := ymdToOrd y 1 1
  let firstWeekday := (firstDay + 6) % 7
  let week1Monday := firstDay - firstWeekday
  if firstWeekday > 3 then week1Monday + 7 else week1Monday

/-- ISO calendar (year, week, weekday) to Gregorian date (CPython
`iso_to_ymd`), validating week and weekday ranges. -/
def isoToYmd (isoYear week day : Nat) : Option (Nat × Nat × Nat) :=
  let weekOk : Bool :=
    if 1 ≤ week ∧ week ≤ 52 then true
    else if week = 53 then
      let fw := (ymdToOrd isoYear 1 1 + 6) % 7
      fw == 3 || (fw == 2 && isLeap isoYear)
    else false
  if ¬weekOk then none
  else if day < 1 ∨ day > 7 then none
  else
    let ord := isoWeek1Monday isoYear + ((week : Int) - 1) * 7 + (day : Int) - 1
    some (ordToYmd ord)

/-- Parse exactly `n` ASCII digits, returning their value and the rest
(CPython `parse_digits`); `acc` accumulates the value. -/
def parseDigitsAux : Nat → Nat → PyStr → Option (Nat × PyStr)
  | 0, acc, cs => some (acc, cs)
  | _ + 1, _, [] => none
  | n + 1, acc, c :: cs =>
    match digitVal? c with
    | some d => parseDigitsAux n (acc * 10 + d) cs
    | none => none

/-- Parse exactly `n` ASCII digits. -/
def parseDigits (n : Nat) (s : PyStr) : Option (Nat × PyStr) := parseDigitsAux n 0 s

/-- Character at index `i`. -/
def charAt? (s : PyStr) (i : Nat) : Option Char := s.get? i

/-- Position of the date/time separator of an ISO datetime string (CPython
3.11 `_find_isoformat_datetime_separator`); `none` models its error return. -/
def findIsoSep (s : PyStr) : Option Nat :=
  let len := s.length
  if len = 7 then some 7
  else if charAt? s 4 = some '-' then
    if charAt? s 5 = some 'W' then
      if len < 8 then none
      else if len > 8 ∧ charAt? s 8 = some '-' then
        if len = 9 then none
        else if len > 10 ∧ (charAt? s 10).elim false Char.isDigit then some 8
        else some 10
      else some 8
    else some 10
  else if charAt? s 4 = some 'W' then
    let idx := 7 + ((s.drop 7).takeWhile Char.isDigit).length
    if idx < 9 then some idx
    else if idx = 10 then some 8
    else none
  else some 8

/-- Parse an ISO date string: `YYYY-MM-DD`, `YYYYMMDD`, or the ISO week forms
`YYYY-Www[-D]` / `YYYYWww[D]` (CPython 3.11 `parse_isoformat_date`). -/
def parseIsoDate (s : PyStr) : Option (Nat × Nat × Nat) := do
  let (y, r1) ← parseDigits 4 s
  let usesSep := r1.head? = some '-'
  let r2 := if usesSep then r1.tail else r1
  match r2 with
  | 'W' :: r3 => do
    let (w, r4) ← parseDigits 2 r3
    if r4 = [] then isoToYmd y w 1
    else do
      let r5 ← if usesSep then
                 (match r4 with | '-' :: t => some t | _ => none)
               else some r4
      let (dy, _) ← parseDigits 1 r5
      isoToYmd y w dy
  | _ => do
    let (mo, r3) ← parseDigits 2 r2
    let r4 ← if usesSep then
               (match r3 with | '-' :: t => some t | _ => none)
             else some r3
    let (dd, _) ← parseDigits 2 r4
    some (y, mo, dd)

/-- Microsecond scaling for a fraction of `n` digits (CPython
`_FRACTION_CORRECTION`). -/
def fracCorrection : Nat → Nat
  | 1 => 100000
  | 2 => 10000
  | 3 => 1000
  | 4 => 100
  | 5 => 10
  | _ => 1

/-- Parse `HH[:?MM[:?SS[{.,}fff[fff]]]]` (CPython `parse_hh_mm_ss_ff`,
with the C implementation's strict digit parsing). -/
def parseHMSF (t : PyStr) : Option (Nat × Nat × Nat × Nat) := do
  let (h, r1) ← parseDigits 2 t
  match r1 with
  | [] => some (h, 0, 0, 0)
  | c1 :: r1' =>
    let hasSep := c1 = ':'
    let r2 := if hasSep then r1' else c1 :: r1'
    let (m, r3) ← parseDigits 2 r2
    match r3 with
    | [] => some (h, m, 0, 0)
    | c2 :: r3' =>
      if hasSep ∧ c2 ≠ ':' then none
      else
        let r4 := if hasSep then r3' else c2 :: r3'
        let (sec, r5) ← parseDigits 2 r4
        match r5 with
        | [] => some (h, m, sec, 0)
        | c3 :: r5' =>
          if c3 = '.' ∨ c3 = ',' then
            if r5' = [] then none
            else do
              let toParse := min 6 r5'.length
              let (frac, r6) ← parseDigits toParse r5'
              if r6.all Char.isDigit then some (h, m, sec, frac * fracCorrection toParse)
              else none
          else none

/-- Parse the time-of-day part of an ISO datetime, including a trailing
`Z` or `±HH[:MM[:SS[.ffffff]]]` timezone (CPython 3.11
`parse_isoformat_time`); yields (h, m, s, µs, utcoffset in µs). -/
def parseIsoTime (t : PyStr) : Option (Nat × Nat × Nat × Nat × Option Int) :=
  if t.length < 2 then none
  else
    match t.findIdx? (fun c => c == '+' || c == '-' || c == 'Z') with
    | none => (parseHMSF t).map (fun (h, m, s, us) => (h, m, s, us, none))
    | some i => do
      let (h, m, s, us) ← parseHMSF (t.take i)
      if charAt? t i = some 'Z' then
        if i + 1 = t.length then some (h, m, s, us, some 0)
        else none
      else
        let tzstr := t.drop (i + 1)
        let (th, tm, ts, tus) ← parseHMSF tzstr
        let sign : Int := if charAt? t i = some '-' then -1 else 1
        let off := sign * (((th * 3600 + tm * 60 + ts : Nat) : Int) * 1000000 + (tus : Int))
        if off = 0 then some (h, m, s, us, some 0)
        else if off.natAbs < 24 * 3600 * 1000000 then some (h, m, s, us, some off)
        else none

/-- The `datetime` constructor's range validation. -/
def mkDatetime? (y mo d h mi s us : Nat) (tz : Option Int) : Option PyDatetime :=
  if 1 ≤ y ∧ y ≤ 9999 ∧ 1 ≤ mo ∧ mo ≤ 12 ∧ 1 ≤ d ∧ d ≤ daysInMonth y mo ∧
     h ≤ 23 ∧ mi ≤ 59 ∧ s ≤ 59 ∧ us ≤ 999999 then
    some ⟨y, mo, d, h, mi, s, us, tz⟩
  else none

/-- Python 3.11 `datetime.fromisoformat`; `none` models `ValueError`. -/
def fromisoformat (s : PyStr) : Option PyDatetime :=
  if s.length < 7 then none
  else do
    let sep ← findIsoSep s
    let dstr := s.take sep
    let tstr := s.drop (sep + 1)
    let (y, mo, dd) ← parseIsoDate dstr
    let (h, mi, sec, us, tz) ←
      if s.length > sep then parseIsoTime tstr
      else some (0, 0, 0, 0, none)
    mkDatetime? y mo dd h mi sec us tz

/-- Errors raised by the embedded python code. -/
inductive PyErr where
  | wcsException (msg : PyStr)
  | valueError (msg : PyStr)
  | typeError
  | keyError
  | indexError
  | attributeError
deriving DecidableEq

instance {ε : Type u} {α : Type v} [DecidableEq ε] [DecidableEq α] :
    DecidableEq (Except ε α) := fun x y =>
  match x, y with
  | .ok a, .ok b =>
    if h : a = b then .isTrue (congrArg Except.ok h)
    else .isFalse (fun hh => h (Except.ok.inj hh))
  | .error a, .error b =>
    if h : a = b then .isTrue (congrArg Except.error h)
    else .isFalse (fun hh => h (Except.error.inj hh))
  | .ok _, .error _ => .isFalse (fun hh => Except.noConfusion hh)
  | .error _, .ok _ => .isFalse (fun hh => Except.noConfusion hh)

/-- UTF-8 continuation byte test. -/
def contB (b : UInt8) : Bool := 0x80 ≤ b && b ≤ 0xBF

/-- The unicode replacement character U+FFFD. -/
def replChar : Char := Char.ofNat 0xFFFD

/-- Decode one UTF-8 sequence with lead byte `b` followed by `bs`: the decoded
character (U+FFFD for an invalid or truncated sequence, which consumes its
longest valid prefix) and how many continuation bytes were consumed. -/
def utf8DecodeOne (b : UInt8) (bs : List UInt8) : Char × Nat :=
  if b ≤ 0x7F then (Char.ofNat b.toNat, 0)
  else if b ≤ 0xC1 then (replChar, 0)
  else if b ≤ 0xDF then
    match bs with
    | b2 :: _ =>
      if contB b2 then
        (Char.ofNat ((b.toNat - 0xC0) * 64 + (b2.toNat - 0x80)), 1)
      else (replChar, 0)
    | [] => (replChar, 0)
  else if b ≤ 0xEF then
    match bs with
    | b2 :: r2 =>
      let okB2 : Bool :=
        if b = 0xE0 then 0xA0 ≤ b2 && b2 ≤ 0xBF
        else if b = 0xED then 0x80 ≤ b2 && b2 ≤ 0x9F
        else contB b2
      if okB2 then
        match r2 with
        | b3 :: _ =>
          if contB b3 then
            (Char.ofNat ((b.toNat - 0xE0) * 4096 + (b2.toNat - 0x80) * 64 +
              (b3.toNat - 0x80)), 2)
          else (replChar, 1)
        | [] => (replChar, 1)
      else (replChar, 0)
    | [] => (replChar, 0)
  else if b ≤ 0xF4 then
    match bs with
    | b2 :: r2 =>
      let okB2 : Bool :=
        if b = 0xF0 then 0x90 ≤ b2 && b2 ≤ 0xBF
        else if b = 0xF4 then 0x80 ≤ b2 && b2 ≤ 0x8F
        else contB b2
      if okB2 then
        match r2 with
        | b3 :: r3 =>
          if contB b3 then
            match r3 with
            | b4 :: _ =>
              if contB b4 then
                (Char.ofNat ((b.toNat - 0xF0) * 262144 + (b2.toNat - 0x80) * 4096 +
                  (b3.toNat - 0x80) * 64 + (b4.toNat - 0x80)), 3)
              else (replChar, 2)
            | [] => (replChar, 2)
          else (replChar, 1)
        | [] => (replChar, 1)
      else (replChar, 0)
    | [] => (replChar, 0)
  else (replChar, 0)

/-- Driver of the UTF-8 decoder, structurally recursive on a fuel that the
wrapper fixes to the byte count (each step consumes at least the lead byte,
so that fuel always suffices). -/
def utf8DecodeAux : Nat → List UInt8 → List Char
  | 0, _ => []
  | _ + 1, [] => []
  | fuel + 1, b :: bs =>
    (utf8DecodeOne b bs).1 :: utf8DecodeAux fuel (bs.drop (utf8DecodeOne b bs).2)

/-- UTF-8 decoding with `errors='replace'`. -/
def utf8DecodeReplace (l : List UInt8) : List Char := utf8DecodeAux l.length l

/-- Byte from two hex digit values. -/
def byteOf (a b : Nat) : UInt8 := UInt8.ofNat (a * 16 + b)

/-- Percent-decoding scanner (python `urllib.parse.unquote`): maximal runs of
`%XX` decode as UTF-8 byte sequences (with replacement), a `%` not followed by
two hex digits stays literal; `pending` holds the bytes of the current run. -/
def pctAux : PyStr → List UInt8 → List Char
  | [], pending => utf8DecodeReplace pending
  | '%' :: c1 :: c2 :: rest, pending =>
    match hexVal? c1, hexVal? c2 with
    | some a, some b => pctAux rest (pending ++ [byteOf a b])
    | _, _ => utf8DecodeReplace pending ++ '%' :: pctAux (c1 :: c2 :: rest) []
  | c :: rest, pending => utf8DecodeReplace pending ++ c :: pctAux rest []

/-- Python `urllib.parse.unquote_plus` as used by `parse_qsl`: `+` becomes a
space, then percent-sequences are decoded. -/
def unquotePlus (s : PyStr) : PyStr := pctAux (replaceChar '+' ' ' s) []

/-- Python `urllib.parse.parse_qsl(qs)` with default arguments: split on `&`,
drop empty fields, fields without `=` and fields with an empty value. -/
def parseQsl (qs : PyStr) : List (PyStr × PyStr) :=
  if qs = [] then []
  else
    (splitOnChar '&' qs).foldr
      (fun nv acc =>
        if nv = [] then acc
        else
          match splitOnFirst '=' nv with
          | (_, none) => acc
          | (n, some v) =>
            if v = [] then acc
            else (unquotePlus n, unquotePlus v) :: acc)
      []

/-- Append `v` under key `k` in an insertion-ordered dict of lists (python
dict semantics used by `parse_qs`). -/
def dictAppend (acc : List (PyStr × List PyStr)) (k : PyStr) (v : PyStr) :
    List (PyStr × List PyStr) :=
  match acc with
  | [] => [(k, [v])]
  | (k', vs) :: rest =>
    if k' = k then (k', vs ++ [v]) :: rest else (k', vs) :: dictAppend rest k v

/-- Python `urllib.parse.parse_qs(qs)`: values grouped by key, keys in
first-seen order. -/
def parseQs (qs : PyStr) : List (PyStr × List PyStr) :=
  (parseQsl qs).foldl (fun acc p => dictAppend acc p.1 p.2) []

/-- The flattened value sequence of `parse_qs`, in the iteration order of
`for _, value in query_params.items(): for subcrs in value`. -/
def qsValues (qs : PyStr) : List PyStr := (parseQs qs).flatMap (·.2)

/-- Result of `urllib.parse.urlsplit`. -/
structure SplitResult where
  scheme : PyStr
  netloc : PyStr
  path : PyStr
  query : PyStr
  fragment : PyStr
deriving DecidableEq

/-- Characters allowed in a URL scheme. -/
def schemeChar (c : Char) : Bool :=
  c.isAlpha || c.isDigit || c == '+' || c == '-' || c == '.'

/-- `urlsplit` input cleaning (CPython 3.11): strip leading C0-control/space
characters, remove tab, CR and LF everywhere. -/
def cleanUrl (s : PyStr) : PyStr :=
  (s.dropWhile (fun c => c.toNat ≤ 32)).filter
    (fun c => !(c == '\t' || c == '\r' || c == '\n'))

/-- Split off the scheme: requires a `:` preceded by an ASCII-alpha-initial
run of scheme characters. -/
def splitScheme (u : PyStr) : PyStr × PyStr :=
  match u.findIdx? (· == ':') with
  | some i =>
    if 0 < i ∧ (u.head?.elim false Char.isAlpha) ∧ (u.take i).all schemeChar then
      (pyLowerAscii (u.take i), u.drop (i + 1))
    else ([], u)
  | none => ([], u)

/-- Split off the network location after `//`, raising `ValueError` on
unbalanced IPv6 brackets (the contents of balanced brackets are not further
validated here). -/
def splitNetloc (u : PyStr) : Except PyErr (PyStr × PyStr) :=
  if u.take 2 = ['/', '/'] then
    let after := u.drop 2
    let j := ((after.findIdx? (fun c => c == '/' || c == '?' || c == '#')).getD after.length)
    let netloc := after.take j
    let rest := after.drop j
    if (netloc.contains '[' && !netloc.contains ']') ||
       (netloc.contains ']' && !netloc.contains '[') then
      .error (.valueError (pys "Invalid IPv6 URL"))
    else .ok (netloc, rest)
  else .ok ([], u)

/-- Split off the fragment (after the first `#`). -/
def splitHash (u : PyStr) : PyStr × PyStr :=
  match splitOnFirst '#' u with
  | (a, some b) => (a, b)
  | (a, none) => (a, [])

/-- Split off the query (after the first `?`). -/
def splitQuery (u : PyStr) : PyStr × PyStr :=
  match splitOnFirst '?' u with
  | (a, some b) => (a, b)
  | (a, none) => (a, [])

/-- Python `urllib.parse.urlsplit`. -/
def pyUrlsplit (url0 : PyStr) : Except PyErr SplitResult := do
  let u1 := cleanUrl url0
  let (scheme, u2) := splitScheme u1
  let (netloc, u3) ← splitNetloc u2
  let (u4, fragment) := splitHash u3
  let (path, query) := splitQuery u4
  .ok ⟨scheme, netloc, path, query, fragment⟩

/-- Schemes for which `urlparse` splits `;parameters` off the path. -/
def usesParamsList : List PyStr :=
  [pys "", pys "ftp", pys "hdl", pys "prospero", pys "http", pys "imap",
   pys "https", pys "shttp", pys "rtsp", pys "rtspu", pys "sip", pys "sips",
   pys "mms", pys "sftp", pys "tel"]

/-- Index of the last occurrence of `c` in `s`. -/
def rfindIdx (c : Char) (s : PyStr) : Option Nat :=
  (s.reverse.findIdx? (· == c)).map (fun i => s.length - 1 - i)

/-- Index of the first occurrence of `c` in `s` at or after `start`. -/
def findIdxFrom (c : Char) (start : Nat) (s : PyStr) : Option Nat :=
  ((s.drop start).findIdx? (· == c)).map (· + start)

/-- CPython `urllib.parse._splitparams`. -/
def splitParams (u : PyStr) : PyStr × PyStr :=
  if u.contains '/' then
    match rfindIdx '/' u with
    | some r =>
      match findIdxFrom ';' r u with
      | some i => (u.take i, u.drop (i + 1))
      | none => (u, [])
    | none => (u, [])
  else
    match u.findIdx? (· == ';') with
    | some i => (u.take i, u.drop (i + 1))
    | none => (u, [])

/-- The `.path` attribute of `urllib.parse.urlparse(url)` (parameters split
off for schemes that use them). -/
def urlparsePath (sr : SplitResult) : PyStr :=
  if usesParamsList.contains sr.scheme ∧ sr.path.contains ';' then
    (splitParams sr.path).1
  else sr.path

/-- A value of the `BoundType` union `Union[int, float, str, datetime]`. -/
inductive BoundType where
  | int (n : Int)
  | real (x : PyFloat)
  | str (s : PyStr)
  | timestamp (d : PyDatetime)
deriving DecidableEq

/-- `wcs.model.Axis`.  `name` is `Option` because the parser passes the value
of an optional XML attribute; bounds parsed from optional attributes or empty
elements can be `None` as well. -/
structure Axis where
  name : Option PyStr
  low : Option BoundType
  high : Option BoundType
  crs : Option PyStr
  uom : Option PyStr
  resolution : Option BoundType
  coefficients : Option (List (Option BoundType))
deriving DecidableEq

/-- `wcs.model.BoundingBox`. -/
structure BoundingBox where
  axes : List Axis
  crs : Option PyStr
deriving DecidableEq

/-- `Axis.is_temporal`: the low bound is a datetime. -/
def Axis.isTemporal (a : Axis) : Bool :=
  match a.low with
  | some (.timestamp _) => true
  | _ => false

/-- `Axis.is_irregular`: coefficients present and non-empty. -/
def Axis.isIrregular (a : Axis) : Bool :=
  match a.coefficients with
  | some l => !l.isEmpty
  | none => false

/-- `Axis.is_regular`: a resolution is set. -/
def Axis.isRegular (a : Axis) : Bool := a.resolution.isSome

/-- Numeric values for python arithmetic/comparison semantics. -/
inductive NumV where
  | fin (q : ℚ)
  | pinf
  | ninf
  | nan
deriving DecidableEq

/-- The numeric value of a bound, when it is an int or float. -/
def numOf : BoundType → Option NumV
  | .int n => some (.fin (n : ℚ))
  | .real (.finite q) => some (.fin q)
  | .real .inf => some .pinf
  | .real .ninf => some .ninf
  | .real .nan => some .nan
  | _ => none

/-- Python `<=` on numbers (comparisons with nan are false). -/
def numLeB : NumV → NumV → Bool
  | .nan, _ => false
  | _, .nan => false
  | .fin a, .fin b => a ≤ b
  | .fin _, .pinf => true
  | .fin _, .ninf => false
  | .pinf, .fin _ => false
  | .pinf, .pinf => true
  | .pinf, .ninf => false
  | .ninf, _ => true

/-- Floor of the base-2 logarithm of a natural number, fuel-based (the fuel
bounds the number of halvings; the wrapper passes `n` itself, which always
suffices). -/
def natLog2Aux : Nat → Nat → Nat
  | 0, _ => 0
  | fuel + 1, n => if 2 ≤ n then natLog2Aux fuel (n / 2) + 1 else 0

/-- Floor of the base-2 logarithm of a natural number. -/
def natLog2F (n : Nat) : Nat := natLog2Aux n n

/-- Round `a / b` (with `b > 0`) to a natural number, ties to even. -/
def rndHalfEven (a b : Nat) : Nat :=
  let q := a / b
  let r := a % b
  if 2 * r < b then q
  else if b < 2 * r then q + 1
  else if q % 2 = 0 then q else q + 1

/-- The rational value `(-1)^sgn * m * 2^e`, built without rational
arithmetic so that it evaluates in the kernel. -/
def qOfSMantExp (sgn : Bool) (m : Nat) (e : Int) : ℚ :=
  let v : Int := if sgn then -(m : Int) else (m : Int)
  if 0 ≤ e then ((v * 2 ^ e.toNat : Int) : ℚ)
  else mkRat v (2 ^ (-e).toNat)

/-- Round the positive rational `n / d` (`n, d > 0`) to IEEE binary64 with
round-to-nearest, ties-to-even: 53-bit significand, exponent range
[-1022, 1023] with subnormals below and overflow to infinity above; `sgn`
gives the sign of the result. -/
def fpRoundSigned (sgn : Bool) (n d : Nat) : NumV :=
  let e0 : Int := (natLog2F n : Int) - (natLog2F d : Int)
  let E : Int :=
    if n * 2 ^ (Int.toNat (-e0)) < d * 2 ^ (Int.toNat e0) then e0 - 1 else e0
  if -1022 ≤ E then
    let t : Int := 52 - E
    let m := if 0 ≤ t then rndHalfEven (n * 2 ^ t.toNat) d
             else rndHalfEven n (d * 2 ^ (-t).toNat)
    let me : Nat × Int := if m = 2 ^ 53 then (2 ^ 52, E + 1) else (m, E)
    if 1023 < me.2 then (if sgn then .ninf else .pinf)
    else .fin (qOfSMantExp sgn me.1 (me.2 - 52))
  else
    .fin (qOfSMantExp sgn (rndHalfEven (n * 2 ^ 1074) d) (-1074))

/-- Round the rational `n / d` (any sign) to binary64. -/
def fpRoundInt2 (n : Int) (d : Nat) : NumV :=
  if n = 0 then .fin 0
  else if 0 < n then fpRoundSigned false n.toNat d
  else fpRoundSigned true (-n).toNat d

/-- Round a rational value to binary64 (CPython's `float(int)` conversion
and the result of every float operation; conversion overflow, which CPython
reports as `OverflowError` for huge ints, is modelled as an infinity — no
settled claim depends on that corner). -/
def fpRoundQ (x : ℚ) : NumV := fpRoundInt2 x.num x.den

/-- The exact sum of two binary64 values, rounded once to binary64 (IEEE
addition).  The sum is formed on numerators and denominators directly so
that it evaluates in the kernel. -/
def fpRoundSum (a b : ℚ) : NumV :=
  fpRoundInt2 (a.num * (b.den : Int) + b.num * (a.den : Int)) (a.den * b.den)

/-- Python float `+` on numeric values already converted to binary64. -/
def numAddCore : NumV → NumV → NumV
  | .nan, _ => .nan
  | _, .nan => .nan
  | .fin a, .fin b => fpRoundSum a b
  | .fin _, .pinf => .pinf
  | .pinf, .fin _ => .pinf
  | .pinf, .pinf => .pinf
  | .fin _, .ninf => .ninf
  | .ninf, .fin _ => .ninf
  | .ninf, .ninf => .ninf
  | .pinf, .ninf => .nan
  | .ninf, .pinf => .nan

/-- Round a numeric operand to binary64 (an int operand of float `+` is
converted with `float()` first; a float operand is already representable, on
which the rounding is the identity). -/
def fpRoundNum : NumV → NumV
  | .fin q => fpRoundQ q
  | v => v

/-- Python `+` with at least one float operand: convert both operands to
binary64, add exactly, round the sum once (IEEE binary64 addition). -/
def numAdd (a b : NumV) : NumV := numAddCore (fpRoundNum a) (fpRoundNum b)

/-- A numeric value as a python float. -/
def numToPF : NumV → PyFloat
  | .fin q => .finite q
  | .pinf => .inf
  | .ninf => .ninf
  | .nan => .nan

/-- Lexicographic `<=` on python strings (code-point order). -/
def strLeB : PyStr → PyStr → Bool
  | [], _ => true
  | _ :: _, [] => false
  | a :: as, b :: bs => if a < b then true else if a = b then strLeB as bs else false

/-- Microseconds of a datetime since the proleptic-Gregorian epoch, ignoring
the timezone. -/
def dtToMicros (d : PyDatetime) : Int :=
  (ymdToOrd d.year d.month d.day * 86400 +
    ((d.hour * 3600 + d.minute * 60 + d.second : Nat) : Int)) * 1000000 + (d.microsecond : Int)

/-- Python `<=` on datetimes: naive compare field-wise, aware compare as
instants, a naive/aware mix raises `TypeError`. -/
def dtLeB : PyDatetime → PyDatetime → Except PyErr Bool
  | a, b =>
    match a.tz, b.tz with
    | none, none => .ok (dtToMicros a ≤ dtToMicros b)
    | some ta, some tb => .ok (dtToMicros a - ta ≤ dtToMicros b - tb)
    | _, _ => .error .typeError

/-- Python `current <= high` on optional bounds (the loop in
`Axis.get_coefficients`); unsupported combinations raise `TypeError`. -/
def pyLeOpt : Option BoundType → Option BoundType → Except PyErr Bool
  | some a, some b =>
    match numOf a, numOf b with
    | some x, some y => .ok (numLeB x y)
    | _, _ =>
      match a, b with
      | .str s, .str t => .ok (strLeB s t)
      | .timestamp u, .timestamp v => dtLeB u v
      | _, _ => .error .typeError
  | _, _ => .error .typeError

/-- Python `current + resolution` on optional bounds; int+int stays int, a
float operand gives a float, str+str concatenates, anything else (including
datetimes, whose timedelta arithmetic the parser never uses) raises
`TypeError`. -/
def pyAddOpt : Option BoundType → Option BoundType → Except PyErr BoundType
  | some (.int a), some (.int b) => .ok (.int (a + b))
  | some a, some b =>
    match numOf a, numOf b with
    | some x, some y => .ok (.real (numToPF (numAdd x y)))
    | _, _ =>
      match a, b with
      | .str s, .str t => .ok (.str (s ++ t))
      | _, _ => .error .typeError
  | _, _ => .error .typeError

/-- The generating loop of `Axis.get_coefficients`
(`while current <= high: ret.append(current); current += resolution`),
indexed by fuel; `none` means the loop has not terminated within `fuel`
iterations. -/
def genLoop : Nat → Option BoundType → Option BoundType → Option BoundType →
    Option (Except PyErr (List (Option BoundType)))
  | 0, _, _, _ => none
  | fuel + 1, current, high, res =>
    match pyLeOpt current high with
    | .error e => some (.error e)
    | .ok false => some (.ok [])
    | .ok true =>
      match pyAddOpt current res with
      | .error e => some (.error e)
      | .ok next =>
        match genLoop fuel (some next) high res with
        | none => none
        | some (.error e) => some (.error e)
        | some (.ok l) => some (.ok (current :: l))

/-- Render an optional name as python str() does for the f-string message. -/
def nameOrNone : Option PyStr → PyStr
  | some s => s
  | none => pys "None"

/-- `Axis.get_coefficients`, fuel-indexed: returns the stored coefficients of
an irregular axis, raises for an axis that is neither regular nor irregular,
and otherwise generates the coefficients from `low` by `resolution`; `none`
means the generating loop has not terminated within `fuel` iterations. -/
def Axis.getCoefficients (a : Axis) (fuel : Nat) :
    Option (Except PyErr (List (Option BoundType))) :=
  if a.isIrregular then some (.ok (a.coefficients.getD []))
  else if ¬ a.isRegular then
    some (.error (.wcsException (nameOrNone a.name ++
      pys " is not a regular or irregular axis, cannot calculate coefficients.")))
  else genLoop fuel a.low a.high a.resolution

/-- Length of the fuel-driven UTF-8 decoding is at most the byte count. -/
theorem utf8DecodeAux_length_le (fuel : Nat) (l : List UInt8) :
    (utf8DecodeAux fuel l).length ≤ l.length := by
  induction fuel generalizing l with
  | zero => simp [utf8DecodeAux]
  | succ fuel ih =>
    cases l with
    | nil => simp [utf8DecodeAux]
    | cons b bs =>
      rw [utf8DecodeAux]
      simp only [List.length_cons]
      have h1 := ih (bs.drop (utf8DecodeOne b bs).2)
      have h2 : (bs.drop (utf8DecodeOne b bs).2).length ≤ bs.length := by
        simp [List.length_drop]
      omega

/-- Length of the UTF-8 replacement decoding is at most the byte count. -/
theorem utf8DecodeReplace_length_le (bs : List UInt8) :
    (utf8DecodeReplace bs).length ≤ bs.length :=
  utf8DecodeAux_length_le bs.length bs

/-- Length bound for the percent-decoding scanner. -/
theorem pctAux_length_le (s : PyStr) (pending : List UInt8) :
    (pctAux s pending).length ≤ s.length + pending.length := by
  induction s, pending using pctAux.induct <;>
    simp_all [pctAux] <;>
    (have h8 := utf8DecodeReplace_length_le ‹List UInt8›; omega)

/-- `unquote_plus` does not lengthen its input. -/
theorem unquotePlus_length_le (s : PyStr) : (unquotePlus s).length ≤ s.length := by
  have h := pctAux_length_le (replaceChar '+' ' ' s) []
  simpa [unquotePlus, replaceChar] using h

/-- Every piece of `split(sep)` is at most as long as the input. -/
theorem splitOnChar_length_le {sep : Char} {s p : PyStr}
    (h : p ∈ splitOnChar sep s) : p.length ≤ s.length := by
  induction s generalizing p with
  | nil => simp [splitOnChar] at h; simp [h]
  | cons c cs ih =>
    simp only [splitOnChar] at h
    cases hrec : splitOnChar sep cs with
    | nil => simp [hrec] at h; simp [h]
    | cons q qs =>
      rw [hrec] at h
      have hq : q.length ≤ cs.length := @ih q (by rw [hrec]; simp)
      have hqs : ∀ x, x ∈ qs → x.length ≤ cs.length := fun x hx =>
        @ih x (by rw [hrec]; simp [hx])
      simp only [List.length_cons]
      by_cases hc : c = sep <;> simp [hc] at h
      · rcases h with h | h | h
        · simp [h]
        · rw [h]; omega
        · have := hqs p h; omega
      · rcases h with h | h
        · rw [h]; simp only [List.length_cons]; omega
        · have := hqs p h; omega

/-- When `split(sep, 1)` finds the separator, the tail is strictly shorter. -/
theorem splitOnFirst_snd_lt {sep : Char} {s a b : PyStr}
    (h : splitOnFirst sep s = (a, some b)) : b.length < s.length := by
  induction s generalizing a with
  | nil => simp [splitOnFirst] at h
  | cons c cs ih =>
    simp only [splitOnFirst, List.length_cons] at h ⊢
    by_cases hc : c = sep
    · rw [if_pos hc] at h
      have hb : b = cs := by
        have := (Prod.mk.injEq _ _ _ _).mp h
        exact ((Option.some.injEq _ _).mp this.2).symm
      rw [hb]; omega
    · rw [if_neg hc] at h
      cases hsp : splitOnFirst sep cs with
      | mk a' b' =>
        rw [hsp] at h
        cases b' with
        | none =>
          have := (Prod.mk.injEq _ _ _ _).mp h
          simp at this
        | some bb =>
          have heq := (Prod.mk.injEq _ _ _ _).mp h
          have hbb : bb = b := (Option.some.injEq _ _).mp heq.2
          have := @ih a' (hbb ▸ hsp)
          omega

/-- The first component of `split(sep, 1)` is at most as long as the input. -/
theorem splitOnFirst_fst_le {sep : Char} {s : PyStr} :
    (splitOnFirst sep s).1.length ≤ s.length := by
  induction s with
  | nil => simp [splitOnFirst]
  | cons c cs ih =>
    simp only [splitOnFirst]
    by_cases hc : c = sep <;> simp [hc]
    cases hsp : splitOnFirst sep cs with
    | mk a' b' =>
      rw [hsp] at ih
      simp at ih ⊢
      omega

/-- Every value produced by `parse_qsl` is strictly shorter than the query. -/
theorem parseQsl_val_lt {qs : PyStr} {p : PyStr × PyStr}
    (h : p ∈ parseQsl qs) : p.2.length < qs.length := by
  unfold parseQsl at h
  by_cases hq : qs = []
  · simp [hq] at h
  · simp only [if_neg hq] at h
    generalize hF : splitOnChar '&' qs = fields at h
    have hFle : ∀ nv ∈ fields, nv.length ≤ qs.length := by
      intro nv hnv; exact splitOnChar_length_le (hF ▸ hnv)
    clear hF
    induction fields with
    | nil => simp at h
    | cons nv rest ih =>
      simp only [List.foldr_cons] at h
      by_cases hnv : nv = []
      · simp [hnv] at h
        exact ih h (fun x hx => hFle x (by simp [hx]))
      · simp only [if_neg hnv] at h
        cases hsp : splitOnFirst '=' nv with
        | mk n v? =>
          rw [hsp] at h
          cases v? with
          | none =>
            simp at h
            exact ih h (fun x hx => hFle x (by simp [hx]))
          | some v =>
            by_cases hv : v = []
            · simp [hv] at h
              exact ih h (fun x hx => hFle x (by simp [hx]))
            · simp only [if_neg hv] at h
              rcases List.mem_cons.mp h with hh | hh
              · have h1 : v.length < nv.length := splitOnFirst_snd_lt hsp
                have h2 : nv.length ≤ qs.length := hFle nv (by simp)
                have h3 := unquotePlus_length_le v
                rw [hh]
                simp only
                omega
              · exact ih hh (fun x hx => hFle x (by simp [hx]))

/-- Flattened members of `dictAppend` come from the accumulator or are the
appended value. -/
theorem dictAppend_flat_mem {acc : List (PyStr × List PyStr)} {k v x : PyStr}
    (h : x ∈ (dictAppend acc k v).flatMap (·.2)) :
    x ∈ acc.flatMap (·.2) ∨ x = v := by
  induction acc with
  | nil => simp [dictAppend] at h; simp [h]
  | cons e rest ih =>
    match e with
    | (k', vs) =>
      simp only [dictAppend] at h
      by_cases hk : k' = k
      · rw [if_pos hk] at h
        simp only [List.flatMap_cons, List.mem_append] at h ⊢
        rcases h with (h | h) | h
        · exact Or.inl (Or.inl h)
        · simp at h; exact Or.inr h
        · exact Or.inl (Or.inr h)
      · rw [if_neg hk] at h
        simp only [List.flatMap_cons, List.mem_append] at h ⊢
        rcases h with h | h
        · exact Or.inl (Or.inl h)
        · rcases ih h with hh | hh
          · exact Or.inl (Or.inr hh)
          · exact Or.inr hh

/-- Flattened members of the `parse_qs` grouping come from the pair list. -/
theorem parseQs_fold_mem (l : List (PyStr × PyStr)) (acc : List (PyStr × List PyStr))
    (x : PyStr) (h : x ∈ (l.foldl (fun a p => dictAppend a p.1 p.2) acc).flatMap (·.2)) :
    x ∈ acc.flatMap (·.2) ∨ ∃ k, (k, x) ∈ l := by
  induction l generalizing acc with
  | nil => exact Or.inl (by simpa using h)
  | cons p rest ih =>
    simp only [List.foldl_cons] at h
    rcases ih (dictAppend acc p.1 p.2) h with hh | hh
    · rcases dictAppend_flat_mem hh with h2 | h2
      · exact Or.inl h2
      · exact Or.inr ⟨p.1, by simp [h2]⟩
    · rcases hh with ⟨k, hk⟩
      exact Or.inr ⟨k, by simp [hk]⟩

/-- Every flattened `parse_qs` value is strictly shorter than the query. -/
theorem qsValues_length_lt {qs v : PyStr} (h : v ∈ qsValues qs) :
    v.length < qs.length := by
  unfold qsValues parseQs at h
  rcases parseQs_fold_mem _ [] v h with hh | ⟨k, hk⟩
  · simp at hh
  · exact parseQsl_val_lt hk

/-- `cleanUrl` does not lengthen its input. -/
theorem cleanUrl_length_le (s : PyStr) : (cleanUrl s).length ≤ s.length :=
  le_trans (List.length_filter_le _ _) (List.dropWhile_sublist _).length_le

/-- The post-scheme remainder is at most as long as the input. -/
theorem splitScheme_snd_le (u : PyStr) : (splitScheme u).2.length ≤ u.length := by
  unfold splitScheme
  cases h : u.findIdx? (· == ':') with
  | none => simp
  | some i =>
    simp only
    split
    · simp [List.length_drop]
    · simp

/-- The post-netloc remainder is at most as long as the input. -/
theorem splitNetloc_snd_le {u : PyStr} {nl rest : PyStr}
    (h : splitNetloc u = .ok (nl, rest)) : rest.length ≤ u.length := by
  unfold splitNetloc at h
  by_cases h2 : u.take 2 = ['/', '/']
  · rw [if_pos h2] at h
    dsimp only at h
    split at h
    · exact absurd h (by simp)
    · simp only [Except.ok.injEq, Prod.mk.injEq] at h
      rw [← h.2]
      simp only [List.length_drop]
      omega
  · rw [if_neg h2] at h
    simp only [Except.ok.injEq, Prod.mk.injEq] at h
    rw [← h.2]

/-- The pre-hash part is at most as long as the input. -/
theorem splitHash_fst_le (u : PyStr) : (splitHash u).1.length ≤ u.length := by
  unfold splitHash
  cases h : splitOnFirst '#' u with
  | mk a b =>
    have hf := @splitOnFirst_fst_le '#' u
    rw [h] at hf
    cases b <;> simpa using hf

/-- The query is strictly shorter than the pre-query string when present. -/
theorem splitQuery_snd_le (u : PyStr) : (splitQuery u).2.length ≤ u.length := by
  unfold splitQuery
  cases h : splitOnFirst '?' u with
  | mk a b =>
    cases b with
    | none => simp
    | some bb =>
      have hlt := splitOnFirst_snd_lt h
      simp only
      omega

/-- The query component of `urlsplit` is at most as long as the URL. -/
theorem pyUrlsplit_query_le {url : PyStr} {sr : SplitResult}
    (h : pyUrlsplit url = .ok sr) : sr.query.length ≤ url.length := by
  unfold pyUrlsplit at h
  dsimp only at h
  cases hs : splitScheme (cleanUrl url) with
  | mk sch u2 =>
    rw [hs] at h
    cases hn : splitNetloc u2 with
    | error e =>
      rw [hn] at h
      simp [Bind.bind, Except.bind] at h
    | ok pr =>
      cases pr with
      | mk nl u3 =>
        rw [hn] at h
        simp only [Bind.bind, Except.bind] at h
        cases hh : splitHash u3 with
        | mk u4 frag =>
          rw [hh] at h
          cases hq : splitQuery u4 with
          | mk path q =>
            rw [hq] at h
            simp only [Except.ok.injEq] at h
            have e1 := cleanUrl_length_le url
            have e2 : u2.length ≤ (cleanUrl url).length := by
              have := splitScheme_snd_le (cleanUrl url); rw [hs] at this; exact this
            have e3 : u3.length ≤ u2.length := splitNetloc_snd_le hn
            have e4 : u4.length ≤ u3.length := by
              have := splitHash_fst_le u3; rw [hh] at this; exact this
            have e5 : q.length ≤ u4.length := by
              have := splitQuery_snd_le u4; rw [hq] at this; exact this
            rw [← h]
            show q.length ≤ url.length
            omega

/-- `Crs.to_short_notation` on a non-None identifier.  Recursion (for
compound CRSs) is on the sub-CRS strings extracted from the query, which are
strictly shorter than the URL. -/
def toShortNotationAux (url : PyStr) : Except PyErr (Option PyStr) :=
  if ¬ url.contains '/' then .ok (some url)
  else
    match h : pyUrlsplit url with
    | .error e => .error e
    | .ok sr =>
      let path := pyStrip (· == '/') (urlparsePath sr)
      if containsSub (pys "/crs-compound") url then
        match (qsValues sr.query).attach.mapM
            (fun v => toShortNotationAux v.1) with
        | .error e => .error e
        | .ok parts =>
          if parts.all Option.isSome then
            .ok (some (List.intercalate (pys "+") (parts.map (fun o => o.getD []))))
          else .error .typeError
      else
        let parts := splitOnChar '/' path
        if parts.length > 2 then
          let authority := parts.getD (parts.length - 3) []
          let version := parts.getD (parts.length - 2) []
          let code := parts.getD (parts.length - 1) []
          if version = ['0'] then .ok (some (authority ++ ':' :: code))
          else .ok (some (authority ++ ':' :: version ++ ':' :: code))
        else .ok none
termination_by url.length
decreasing_by
  have hq := pyUrlsplit_query_le h
  have hv := qsValues_length_lt v.2
  omega

/-- `Crs.to_short_notation`. -/
def toShortNotation : Option PyStr → Except PyErr (Option PyStr)
  | none => .ok none
  | some url => toShortNotationAux url

/-- Decimal digit character. -/
def digitChar (n : Nat) : Char := Char.ofNat (48 + n)

/-- Decimal digits of `n`, structurally recursive on a fuel that the wrapper
fixes to `n + 1` (the quotient shrinks strictly, so that fuel suffices). -/
def natReprAux : Nat → Nat → PyStr
  | 0, _ => []
  | fuel + 1, n =>
    if n < 10 then [digitChar n]
    else natReprAux fuel (n / 10) ++ [digitChar (n % 10)]

/-- Python `str(n)` for a natural number. -/
def natRepr (n : Nat) : PyStr := natReprAux (n + 1) n

/-- Python `str(n)` for an int. -/
def intStr (n : Int) : PyStr :=
  if n < 0 then '-' :: natRepr n.natAbs else natRepr n.natAbs

/-- An XML element as exposed by `xml.etree.ElementTree`: a (possibly
namespace-qualified) tag, attributes in document order, optional text, and
child elements. -/
structure XmlElem where
  tag : PyStr
  attribs : List (PyStr × PyStr)
  text : Option PyStr
  children : List XmlElem

/-- `element.get(key)`: attribute lookup. -/
def attrGet (e : XmlElem) (k : PyStr) : Option PyStr :=
  (e.attribs.find? (fun p => decide (p.1 = k))).map (·.2)

/-- `parse_tag_name`: strip the `{namespace}` prefix
(`element.tag.split('}')[-1]`). -/
def parse_tag_name (e : XmlElem) : PyStr :=
  (splitOnChar '}' e.tag).getLastD []

/-- `validate_tag_name`. -/
def validate_tag_name (e : XmlElem) (expected : PyStr) : Except PyErr Unit :=
  if parse_tag_name e = expected then .ok ()
  else .error (.wcsException (pys "Expected a " ++ expected ++
    pys " element, but got " ++ parse_tag_name e))

/-- `first_child`: the first child, optionally validating its tag. -/
def first_child (e : XmlElem) (expectedTag : Option PyStr) : Except PyErr XmlElem :=
  match e.children with
  | c :: _ =>
    match expectedTag with
    | some tag => do
      validate_tag_name c tag
      .ok c
    | none => .ok c
  | [] => .error (.wcsException (pys "Element " ++ parse_tag_name e ++
      pys " has no child element."))

/-- `parse_bound`: quote-strip, then try ISO datetime, quoted string, int,
float, in that order. -/
def parse_bound : Option PyStr → Except PyErr (Option BoundType)
  | none => .ok none
  | some bound0 =>
    let is_string := bound0.head? = some '"'
    let bound := pyStrip (· == '"') bound0
    match fromisoformat bound with
    | some d => .ok (some (.timestamp d))
    | none =>
      if is_string then .ok (some (.str bound))
      else
        match pyIntParse bound with
        | some n => .ok (some (.int n))
        | none =>
          match pyFloatParse bound with
          | some x => .ok (some (.real x))
          | none => .error (.wcsException (pys "Failed parsing bound '" ++
              bound ++ pys "'"))

/-- `parse_bounds_list`: whitespace-split and parse each bound. -/
def parse_bounds_list : Option PyStr → Except PyErr (List (Option BoundType))
  | none => .ok []
  | some text => (pySplitWs text).mapM (fun b => parse_bound (some b))

/-- The component CRSs of a CRS identifier: the query values of a compound
CRS (in `parse_qs` items order), otherwise the identifier itself. -/
def crsComponents (crs : PyStr) : Except PyErr (List PyStr) :=
  if containsSub (pys "crs-compound") crs then do
    let sr ← pyUrlsplit crs
    .ok (qsValues sr.query)
  else .ok [crs]

/-- `crs_to_crs_per_axis`: each component once, and twice when it contains
`EPSG`. -/
def crs_to_crs_per_axis : Option PyStr → Except PyErr (List PyStr)
  | none => .ok []
  | some crs => do
    let crss ← crsComponents crs
    .ok (crss.foldl
      (fun ret c => ret ++ (if containsSub (pys "EPSG") c then [c, c] else [c])) [])

/-- A crude rendering of an element, standing in for `ET.tostring` in the
"Failed parsing CRS" message (no settled claim depends on this text). -/
def elementToString (e : XmlElem) : PyStr :=
  '<' :: e.tag ++ (e.attribs.flatMap (fun p => ' ' :: p.1 ++ '=' :: '"' :: p.2 ++ ['"'])) ++
    '>' :: (e.text.getD []) ++ pys "..." ++ '<' :: '/' :: e.tag ++ ['>']

/-- Three-way `zip`. -/
def zip3 : List α → List β → List γ → List (α × β × γ)
  | a :: as, b :: bs, c :: cs => (a, b, c) :: zip3 as bs cs
  | _, _, _ => []

/-- The corner-scanning loop of `parse_bounding_box`: each
`LowerCorner` / `UpperCorner` child's text is parsed as a bounds list (the
last occurrence wins); other children are skipped. -/
def scanCorners : List XmlElem →
    (Option (List (Option BoundType)) × Option (List (Option BoundType))) →
    Except PyErr (Option (List (Option BoundType)) × Option (List (Option BoundType)))
  | [], acc => .ok acc
  | c :: rest, (ll, ur) =>
    let tag := parse_tag_name c
    if tag = pys "LowerCorner" then do
      let v ← parse_bounds_list c.text
      scanCorners rest (some v, ur)
    else if tag = pys "UpperCorner" then do
      let v ← parse_bounds_list c.text
      scanCorners rest (ll, some v)
    else scanCorners rest (ll, ur)

/-- The final value of the reused `tag` variable in `parse_bounding_box`
(the element's own tag, overwritten by each child's tag in the loop). -/
def finalTagVar (e : XmlElem) : PyStr :=
  e.children.foldl (fun _ c => parse_tag_name c) (parse_tag_name e)

/-- `parse_bounding_box(bbox_element, crs=None)`. -/
def parse_bounding_box (e? : Option XmlElem) (crsArg : Option PyStr) :
    Except PyErr (Option BoundingBox) :=
  match e? with
  | none => .ok none
  | some e => do
    let corners ← scanCorners e.children (none, none)
    match corners.1 with
    | none => .error (.wcsException (pys "Failed parsing " ++ finalTagVar e ++
        pys "/LowerCorner element."))
    | some ll =>
      match corners.2 with
      | none => .error (.wcsException (pys "Failed parsing " ++ finalTagVar e ++
          pys "/UpperCorner element."))
      | some ur =>
        let crs? := match crsArg with
          | some c => some c
          | none => attrGet e (pys "crs")
        match crs? with
        | none => .error (.wcsException (pys "Failed parsing CRS from XML element:\n" ++
            elementToString e))
        | some crs => do
          let axis_crss ← crs_to_crs_per_axis (some crs)
          let axes := (zip3 ll ur axis_crss).map
            (fun t => Axis.mk (some []) t.1 t.2.1 (some t.2.2) none none none)
          .ok (some ⟨axes, some crs⟩)

/-- `parse_wgs84_bounding_box`. -/
def parse_wgs84_bounding_box (e? : Option XmlElem) :
    Except PyErr (Option (Axis × Axis)) :=
  match e? with
  | none => .ok none
  | some e => do
    validate_tag_name e (pys "WGS84BoundingBox")
    let bbox? ← parse_bounding_box (some e) (some (pys "EPSG:4326"))
    match bbox? with
    | none => .error .attributeError
    | some bbox =>
      match bbox.axes with
      | [a0, a1] =>
        .ok (some ({a0 with name := some (pys "Lon")},
                   {a1 with name := some (pys "Lat")}))
      | axes =>
        .error (.wcsException (pys "Expected a WGS84BoundingBox element bounds " ++
          pys "for lon/lat axes, but got " ++ natRepr axes.length ++ pys " bounds"))

/-- Set (or append) a key in an insertion-ordered string dict. -/
def dictSet (acc : List (PyStr × PyStr)) (k v : PyStr) : List (PyStr × PyStr) :=
  match acc with
  | [] => [(k, v)]
  | (k', v') :: rest =>
    if k' = k then (k', v) :: rest else (k', v') :: dictSet rest k v

/-- `parse_additional_parameters`. -/
def parse_additional_parameters : Option XmlElem → Except PyErr (List (PyStr × PyStr))
  | none => .ok []
  | some e => do
    validate_tag_name e (pys "AdditionalParameters")
    e.children.foldlM
      (fun ret param => do
        let tag := parse_tag_name param
        if tag ≠ pys "AdditionalParameter" then
          .error (.wcsException (pys "Unexpected child element of AdditionalParameters: " ++ tag))
        else do
          let nv ← param.children.foldlM
            (fun (nv : Option PyStr × Option PyStr) child => do
              let t := parse_tag_name child
              if t = pys "Name" then pure (child.text, nv.2)
              else if t = pys "Value" then pure (nv.1, child.text)
              else Except.error (.wcsException
                (pys "Unexpected child element of AdditionalParameter: " ++ t)))
            (none, none)
          match nv.1 with
          | none => .error (.wcsException
              (pys "AdditionalParameter element missing a Name child element."))
          | some name =>
            match nv.2 with
            | none => .error (.wcsException
                (pys "AdditionalParameter element missing a Value child element."))
            | some value => .ok (dictSet ret name value))
      []

/-- The `{name: index for index, name in enumerate(...)}` dict of
`parse_domain_set`: later duplicates override, so this is the last index of
the label; a `None` axis name is not a key (`KeyError`). -/
def nameToIndex (labels : List PyStr) : Option PyStr → Option Nat
  | none => none
  | some s =>
    (labels.reverse.findIdx? (fun l => decide (l = s))).map
      (fun i => labels.length - 1 - i)

/-- The key lookup `name_to_index[axis.name]` of `parse_domain_set`: a
missing name raises `KeyError`. -/
def keyOf (labels : List PyStr) (a : Axis) : Except PyErr (Nat × Axis) :=
  match nameToIndex labels a.name with
  | some i => .ok (i, a)
  | none => .error .keyError

/-- Stable insertion into a key-sorted list (equal keys keep first-come
order, as python's stable `sorted`). -/
def insertKeyed (x : Nat × Axis) : List (Nat × Axis) → List (Nat × Axis)
  | [] => [x]
  | y :: ys => if x.1 ≤ y.1 then x :: y :: ys else y :: insertKeyed x ys

/-- Stable sort by key (a model of python's stable `sorted(..., key=...)`). -/
def sortKeyed (l : List (Nat × Axis)) : List (Nat × Axis) :=
  l.foldr insertKeyed []

/-- Set the CRS of each axis from the per-axis CRS list
(`for axis, axis_crs in zip(geo_axes, crs_to_crs_per_axis(crs))`): the zipped
prefix is updated, remaining axes are unchanged. -/
def setCrsZip : List Axis → List PyStr → List Axis
  | a :: as, c :: cs => {a with crs := some c} :: setCrsZip as cs
  | as, [] => as
  | [], _ => []

/-- One iteration of the axis-collection loop of `parse_domain_set`. -/
def axesStep (acc : List Axis × List Axis) (ax : XmlElem) :
    Except PyErr (List Axis × List Axis) := do
  let tag := parse_tag_name ax
  let name := attrGet ax (pys "axisLabel")
  if tag = pys "RegularAxis" then do
    let res ← match attrGet ax (pys "resolution") with
      | none => Except.error PyErr.typeError
      | some rs =>
        match pyFloatParse rs with
        | some f => Except.ok (BoundType.real f)
        | none => Except.ok (BoundType.str rs)
    let low ← parse_bound (attrGet ax (pys "lowerBound"))
    let high ← parse_bound (attrGet ax (pys "upperBound"))
    .ok (acc.1 ++ [⟨name, low, high, none, attrGet ax (pys "uomLabel"), some res, none⟩],
      acc.2)
  else if tag = pys "IrregularAxis" then do
    let coefficients ← ax.children.mapM (fun c => parse_bound c.text)
    match coefficients with
    | [] => .error .indexError
    | c0 :: _ =>
      .ok (acc.1 ++ [⟨name, c0, coefficients.getLastD none, none,
        attrGet ax (pys "uomLabel"), none, some coefficients⟩], acc.2)
  else if tag = pys "GridLimits" then do
    let gaxes ← ax.children.mapM (fun ia => do
      let low ← parse_bound (attrGet ia (pys "lowerBound"))
      let high ← parse_bound (attrGet ia (pys "upperBound"))
      Except.ok (⟨attrGet ia (pys "axisLabel"), low, high, none, none,
        some (.int 1), none⟩ : Axis))
    .ok (acc.1, acc.2 ++ gaxes)
  else .ok acc

/-- The axis-collection loop of `parse_domain_set`. -/
def axesLoop (children : List XmlElem) : Except PyErr (List Axis × List Axis) :=
  children.foldlM axesStep ([], [])

/-- `parse_domain_set`. -/
def parse_domain_set (e? : Option XmlElem) :
    Except PyErr (Option BoundingBox × Option BoundingBox) :=
  match e? with
  | none => .ok (none, none)
  | some e => do
    validate_tag_name e (pys "DomainSet")
    let gg ← first_child e (some (pys "GeneralGrid"))
    let crs := attrGet gg (pys "srsName")
    let axesAcc ← axesLoop gg.children
    match attrGet gg (pys "axisLabels") with
    | none => .error (.wcsException (pys "GeneralGrid element missing axisLabels attribute."))
    | some labelsStr =>
      let labels := pySplitWs labelsStr
      let keyed ← axesAcc.1.mapM (keyOf labels)
      let sortedGeo := (sortKeyed keyed).map (·.2)
      let crsper ← crs_to_crs_per_axis crs
      let geoFinal := setCrsZip sortedGeo crsper
      .ok (some ⟨geoFinal, crs⟩, some ⟨axesAcc.2, none⟩)

/-- `wcs.model.NilValue`. -/
structure NilValue where
  nil_value : Option PyStr
  reason : Option PyStr
deriving DecidableEq

/-- `wcs.model.Field`. -/
structure Field where
  name : Option PyStr
  is_quantity : Bool
  definition : Option PyStr
  label : Option PyStr
  description : Option PyStr
  codespace : Option PyStr
  uom : Option PyStr
  nil_values : Option (List NilValue)
deriving DecidableEq

/-- `wcs.model.RangeType`. -/
structure RangeType where
  fields : List Field
deriving DecidableEq

/-- `parse_range_type`. -/
def parse_range_type : Option XmlElem → Except PyErr (Option RangeType)
  | none => .ok none
  | some e => do
    validate_tag_name e (pys "RangeType")
    let dataRecord ← first_child e (some (pys "DataRecord"))
    let fields ← dataRecord.children.mapM (fun fieldElement => do
      let name := attrGet fieldElement (pys "name")
      let child ← first_child fieldElement none
      let f0 : Field := ⟨name, parse_tag_name child = pys "Quantity",
        attrGet child (pys "definition"), none, none, none, none, none⟩
      child.children.foldlM
        (fun (f : Field) c => do
          let tag := parse_tag_name c
          if tag = pys "label" then Except.ok {f with label := c.text}
          else if tag = pys "description" then Except.ok {f with description := c.text}
          else if tag = pys "codeSpace" then Except.ok {f with codespace := attrGet c (pys "href")}
          else if tag = pys "uom" then Except.ok {f with uom := attrGet c (pys "code")}
          else if tag = pys "nilValues" then do
            let nve ← first_child c none
            if parse_tag_name nve = pys "NilValues" then
              Except.ok {f with nil_values := some (nve.children.map
                (fun nv => (⟨nv.text, attrGet nv (pys "reason")⟩ : NilValue)))}
            else Except.ok {f with nil_values := some []}
          else Except.ok f)
        f0)
    .ok (some ⟨fields⟩)

/-- The values of `element_to_dict`: python None, strings, lists, dicts. -/
inductive DictVal where
  | null
  | s (v : PyStr)
  | lst (vs : List DictVal)
  | dict (kvs : List (PyStr × DictVal))

/-- Set (or append) a key in an insertion-ordered DictVal dict. -/
def dictValSet (d : List (PyStr × DictVal)) (k : PyStr) (v : DictVal) :
    List (PyStr × DictVal) :=
  match d with
  | [] => [(k, v)]
  | (k', v') :: rest =>
    if k' = k then (k', v) :: rest else (k', v') :: dictValSet rest k v

/-- Append a value under a key, grouping by key in first-seen order (the
`defaultdict(list)` of `element_to_dict`). -/
def dictValAppend (acc : List (PyStr × List DictVal)) (k : PyStr) (v : DictVal) :
    List (PyStr × List DictVal) :=
  match acc with
  | [] => [(k, [v])]
  | (k', vs) :: rest =>
    if k' = k then (k', vs ++ [v]) :: rest else (k', vs) :: dictValAppend rest k v

mutual

/-- `element_to_dict` as the single (tag, value) entry it produces (mutually
recursive with its mapping over the children). -/
def elementToDictKV : XmlElem → PyStr × DictVal
  | XmlElem.mk tg attribs text children =>
    let tag := (splitOnChar '}' tg).getLastD []
    let childKVs := elementToDictList children
    let base : DictVal :=
      if children.isEmpty then (if attribs.isEmpty then .null else .dict [])
      else
        .dict ((childKVs.foldl (fun acc p => dictValAppend acc p.1 p.2) []).map
          (fun p => (p.1, match p.2 with
            | [v] => v
            | vs => DictVal.lst vs)))
    let withAttrs : DictVal :=
      if attribs.isEmpty then base
      else
        match base with
        | .dict kvs =>
          .dict (attribs.foldl (fun d p => dictValSet d ('@' :: p.1) (.s p.2)) kvs)
        | other => other
    match text with
    | none => (tag, withAttrs)
    | some txt =>
      if txt = [] then (tag, withAttrs)
      else
        let stext := pyStripWs txt
        if ¬children.isEmpty ∨ ¬attribs.isEmpty then
          if stext = [] then (tag, withAttrs)
          else (tag, match withAttrs with
            | .dict kvs => .dict (dictValSet kvs (pys "#text") (.s stext))
            | other => other)
        else (tag, .s stext)

/-- `map element_to_dict` over a list of children. -/
def elementToDictList : List XmlElem → List (PyStr × DictVal)
  | [] => []
  | c :: cs => elementToDictKV c :: elementToDictList cs

end

/-- `element_to_dict`. -/
def element_to_dict (t : XmlElem) : DictVal := .dict [elementToDictKV t]

/-- `parse_metadata`. -/
def parse_metadata : Option XmlElem → Except PyErr DictVal
  | none => .ok (.dict [])
  | some e => do
    validate_tag_name e (pys "Metadata")
    let kv := elementToDictKV e
    let ret := if kv.1 = pys "Metadata" then kv.2 else .dict [kv]
    match ret with
    | .s t => if t = [] then .ok (.dict []) else .ok (.s t)
    | other => .ok other

/-- `wcs.model.BasicCoverage` (with `lon`/`lat` stored separately, as the
constructor unpacks `lon_lat`). -/
structure BasicCoverage where
  name : PyStr
  subtype : Option PyStr
  lon : Option Axis
  lat : Option Axis
  bbox : Option BoundingBox
  size_bytes : Option Int
  additional_params : List (PyStr × PyStr)
deriving DecidableEq

/-- Accumulator of the child-scanning loop of `parse_coverage_summary`. -/
structure SummaryAcc where
  name : Option PyStr
  subtype : Option PyStr
  lonlat : Option (Axis × Axis)
  bbox : Option BoundingBox
  params : List (PyStr × PyStr)

/-- Remove a key from an insertion-ordered string dict (`dict.pop`). -/
def dictPop (d : List (PyStr × PyStr)) (k : PyStr) : List (PyStr × PyStr) :=
  d.filter (fun p => decide (p.1 ≠ k))

/-- Rename bbox axes positionally from the axis list
(`for axis_name, axis in zip(axis_list, bbox.axes)`). -/
def renameZip : List PyStr → List Axis → List Axis
  | n :: ns, a :: as => {a with name := some n} :: renameZip ns as
  | [], as => as
  | _, [] => []

/-- `parse_coverage_summary`. -/
def parse_coverage_summary : Option XmlElem → Except PyErr (Option BasicCoverage)
  | none => .ok none
  | some e => do
    validate_tag_name e (pys "CoverageSummary")
    let st ← e.children.foldlM
      (fun (st : SummaryAcc) c => do
        let tag := parse_tag_name c
        if tag = pys "CoverageId" then Except.ok {st with name := c.text}
        else if tag = pys "CoverageSubtype" then Except.ok {st with subtype := c.text}
        else if tag = pys "WGS84BoundingBox" then do
          let ll ← parse_wgs84_bounding_box (some c)
          match ll with
          | some pair => Except.ok {st with lonlat := some pair}
          | none => Except.error PyErr.typeError
        else if tag = pys "BoundingBox" then do
          let bb ← parse_bounding_box (some c) none
          Except.ok {st with bbox := bb}
        else if tag = pys "AdditionalParameters" then do
          let ps ← parse_additional_parameters (some c)
          Except.ok {st with params := ps}
        else Except.ok st)
      ⟨none, none, none, none, []⟩
    match st.name with
    | none => .error (.wcsException
        (pys "CoverageSummary is missing required CoverageId child element."))
    | some name => do
      let extracted ← st.params.foldlM
        (fun (acc : Option Int × Option (List PyStr)) kv => do
          let acc1 ←
            if kv.1 = pys "sizeInBytes" then
              match pyIntParse kv.2 with
              | some n => Except.ok (some n, acc.2)
              | none => Except.error (PyErr.valueError
                  (pys "invalid literal for int() with base 10: '" ++ kv.2 ++ pys "'"))
            else Except.ok acc
          if kv.1 = pys "axisList" then
            Except.ok (acc1.1, some (splitOnChar ',' kv.2))
          else Except.ok acc1)
        (none, none)
      let params1 := dictPop (dictPop st.params (pys "sizeInBytes")) (pys "axisList")
      let bbox1 := match extracted.2, st.bbox with
        | some axisList, some bbox => some (⟨renameZip axisList bbox.axes, bbox.crs⟩ : BoundingBox)
        | _, b => b
      .ok (some ⟨name, st.subtype, st.lonlat.map (·.1), st.lonlat.map (·.2),
        bbox1, extracted.1, params1⟩)

/-! ### Helper lemmas shared by the claim theorems -/

/-- A left fold appending per-element blocks is a `flatMap`. -/
theorem foldl_append_eq_flatMap (f : PyStr → List PyStr) :
    ∀ (l : List PyStr) (init : List PyStr),
      l.foldl (fun ret c => ret ++ f c) init = init ++ l.flatMap f := by
  intro l
  induction l with
  | nil => intro init; simp
  | cons c cs ih =>
    intro init
    simp only [List.foldl_cons, List.flatMap_cons, ih, List.append_assoc]

/-- Multiplicity of a string in the EPSG-duplicated expansion. -/
theorem count_flatMap_dup (L : List PyStr) (c : PyStr) :
    ((L.flatMap (fun x => if containsSub (pys "EPSG") x then [x, x] else [x])).count c) =
      L.count c * (if containsSub (pys "EPSG") c then 2 else 1) := by
  induction L with
  | nil => simp
  | cons x xs ih =>
    simp only [List.flatMap_cons, List.count_append, ih]
    by_cases hx : x = c
    · subst hx
      by_cases he : containsSub (pys "EPSG") x
      · simp [he, List.count_cons]
        ring
      · simp [he, List.count_cons]
        omega
    · have hbc : (x == c) = false := by simp [hx]
      by_cases he : containsSub (pys "EPSG") x <;>
        simp [he, List.count_cons, hbc, hx]

/-! ### C1 -/

/-- C1 counterexample: `crs_to_crs_per_axis` does not expand every compound
CRS identifier — on an identifier whose authority part has an unbalanced
IPv6 bracket, `urlparse` raises `ValueError`, so no per-axis list is
produced at all. -/
theorem C1_counterexample :
    crs_to_crs_per_axis (some (pys "//[crs-compound?1=a&2=b")) =
      .error (.valueError (pys "Invalid IPv6 URL")) ∧
    crs_to_crs_per_axis (some (pys "//[crs-compound?1=a&2=b")) ≠
      .ok [pys "a", pys "b"] :=
  ⟨by decide, by decide⟩

/-- C1 (amended): `crs_to_crs_per_axis(None)` is empty; whenever the
component extraction succeeds (i.e. `urlparse` does not raise on a compound
identifier), the result is the concatenation of each component once, or twice
when it contains `EPSG` (so the duplicates are consecutive); a non-compound
identifier has itself as its only component; and consequently every string
containing `EPSG` occurs exactly twice per component occurrence and every
other string exactly once. -/
theorem C1_crs_per_axis_amended :
    crs_to_crs_per_axis none = .ok [] ∧
    (∀ crs compList, crsComponents crs = .ok compList →
      crs_to_crs_per_axis (some crs) =
        .ok (compList.flatMap
          (fun c => if containsSub (pys "EPSG") c then [c, c] else [c]))) ∧
    (∀ crs, containsSub (pys "crs-compound") crs = false →
      crsComponents crs = .ok [crs]) ∧
    (∀ (compList : List PyStr) (c : PyStr),
      ((compList.flatMap
        (fun x => if containsSub (pys "EPSG") x then [x, x] else [x])).count c) =
        compList.count c * (if containsSub (pys "EPSG") c then 2 else 1)) := by
  refine ⟨rfl, ?_, ?_, count_flatMap_dup⟩
  · intro crs compList h
    simp only [crs_to_crs_per_axis, h, Bind.bind, Except.bind]
    rw [foldl_append_eq_flatMap]
    simp
  · intro crs h
    unfold crsComponents
    simp [h]

/-- C1 witness: the amended theorem applied to the compound CRS from the test
suite, whose second component contains `EPSG` and is duplicated. -/
theorem C1_witness :
    crs_to_crs_per_axis (some (pys "https://www.opengis.net/def/crs-compound?1=https://www.opengis.net/def/crs/OGC/0/AnsiDate&2=https://www.opengis.net/def/crs/EPSG/0/4326")) =
      .ok [pys "https://www.opengis.net/def/crs/OGC/0/AnsiDate",
           pys "https://www.opengis.net/def/crs/EPSG/0/4326",
           pys "https://www.opengis.net/def/crs/EPSG/0/4326"] :=
  C1_crs_per_axis_amended.2.1
    (pys "https://www.opengis.net/def/crs-compound?1=https://www.opengis.net/def/crs/OGC/0/AnsiDate&2=https://www.opengis.net/def/crs/EPSG/0/4326")
    [pys "https://www.opengis.net/def/crs/OGC/0/AnsiDate",
     pys "https://www.opengis.net/def/crs/EPSG/0/4326"]
    (by decide)

/-! ### C7 -/

/-- C7: every parser that accepts an optional XML element or optional text
returns its designated empty value on a `None` input — `(None, None)` for
`parse_domain_set`, `None` for `parse_range_type`, `parse_coverage_summary`,
`parse_wgs84_bounding_box`, `parse_bounding_box` and `parse_bound`, an empty
mapping for `parse_metadata` and `parse_additional_parameters`, an empty
sequence for `parse_bounds_list` — and never raises. -/
theorem C7_none_input_empty :
    parse_domain_set none = .ok (none, none) ∧
    parse_range_type none = .ok none ∧
    parse_metadata none = .ok (.dict []) ∧
    parse_coverage_summary none = .ok none ∧
    parse_wgs84_bounding_box none = .ok none ∧
    (∀ crsArg, parse_bounding_box none crsArg = .ok none) ∧
    parse_additional_parameters none = .ok [] ∧
    parse_bounds_list none = .ok [] ∧
    parse_bound none = .ok none :=
  ⟨rfl, rfl, rfl, rfl, rfl, fun _ => rfl, rfl, rfl, rfl⟩

/-! ### C8 -/

/-- C8: for a leaf element (no children and no attributes), `element_to_dict`
returns a single-key mapping from the unqualified tag name to the trimmed
text content, or `None` when the text is absent or empty. -/
theorem C8_leaf_element_to_dict (t : XmlElem)
    (hch : t.children = []) (hat : t.attribs = []) :
    element_to_dict t = .dict [(parse_tag_name t,
      match t.text with
      | none => DictVal.null
      | some [] => DictVal.null
      | some txt => DictVal.s (pyStripWs txt))] := by
  cases t with
  | mk tg attribs text children =>
    simp only at hch hat
    subst hch hat
    unfold element_to_dict elementToDictKV
    cases text with
    | none => rfl
    | some txt =>
      cases txt with
      | nil => rfl
      | cons c cs =>
        simp [elementToDictList, parse_tag_name]

/-- C8 witness: a namespaced leaf with padded text, and a leaf with no
text. -/
theorem C8_witness :
    element_to_dict (XmlElem.mk (pys "{http://x}title") [] (some (pys "  Temperature ")) []) =
      .dict [(pys "title", .s (pys "Temperature"))] ∧
    element_to_dict (XmlElem.mk (pys "keywords") [] none []) =
      .dict [(pys "keywords", .null)] :=
  ⟨C8_leaf_element_to_dict _ rfl rfl, C8_leaf_element_to_dict _ rfl rfl⟩

/-! ### C3 -/

/-- C3: `parse_bound` applies its classification rules in order: `None`
maps to `None`; otherwise the value is quote-stripped (remembering whether it
was quoted) and tried as an ISO timestamp, then — if quoted — returned as a
plain string, then tried as an integer, then as a real, and otherwise the
parse fails with the message `Failed parsing bound '<value>'` built from the
stripped value. -/
theorem C3_parse_bound_cascade :
    parse_bound none = .ok none ∧
    ∀ s : PyStr,
      (∀ d, fromisoformat (pyStrip (· == '"') s) = some d →
        parse_bound (some s) = .ok (some (.timestamp d))) ∧
      (fromisoformat (pyStrip (· == '"') s) = none → s.head? = some '"' →
        parse_bound (some s) = .ok (some (.str (pyStrip (· == '"') s)))) ∧
      (fromisoformat (pyStrip (· == '"') s) = none → ¬(s.head? = some '"') →
        ∀ n, pyIntParse (pyStrip (· == '"') s) = some n →
          parse_bound (some s) = .ok (some (.int n))) ∧
      (fromisoformat (pyStrip (· == '"') s) = none → ¬(s.head? = some '"') →
        pyIntParse (pyStrip (· == '"') s) = none →
        ∀ x, pyFloatParse (pyStrip (· == '"') s) = some x →
          parse_bound (some s) = .ok (some (.real x))) ∧
      (fromisoformat (pyStrip (· == '"') s) = none → ¬(s.head? = some '"') →
        pyIntParse (pyStrip (· == '"') s) = none →
        pyFloatParse (pyStrip (· == '"') s) = none →
        parse_bound (some s) = .error (.wcsException
          (pys "Failed parsing bound '" ++ pyStrip (· == '"') s ++ pys "'"))) := by
  refine ⟨rfl, fun s => ⟨?_, ?_, ?_, ?_, ?_⟩⟩
  · intro d hd
    simp only [parse_bound, hd]
  · intro hiso hq
    simp only [parse_bound, hiso]
    rw [if_pos hq]
  · intro hiso hq n hn
    simp only [parse_bound, hiso, hn]
    rw [if_neg hq]
  · intro hiso hq hn x hx
    simp only [parse_bound, hiso, hn, hx]
    rw [if_neg hq]
  · intro hiso hq hn hx
    simp only [parse_bound, hiso, hn, hx]
    rw [if_neg hq]

/-- C3 witness: the cascade applied to an integer, a quoted string, and an
unparseable bound. -/
theorem C3_witness :
    parse_bound (some (pys "42")) = .ok (some (.int 42)) ∧
    parse_bound (some (pys "\"hello\"")) = .ok (some (.str (pys "hello"))) ∧
    parse_bound (some (pys "invalid-bound")) =
      .error (.wcsException (pys "Failed parsing bound 'invalid-bound'")) :=
  ⟨(C3_parse_bound_cascade.2 (pys "42")).2.2.1 (by decide) (by decide) 42 (by decide),
   (C3_parse_bound_cascade.2 (pys "\"hello\"")).2.1 (by decide) (by decide),
   (C3_parse_bound_cascade.2 (pys "invalid-bound")).2.2.2.2
     (by decide) (by decide) (by decide) (by decide)⟩

/-! ### C6 -/

/-- C6 counterexample: a `WGS84BoundingBox` whose corners carry 3 bounds each
does not raise — the 2-element per-axis CRS list for `EPSG:4326` truncates the
`zip` to 2 axes, and the parse succeeds with axes named `Lon`/`Lat`. -/
theorem C6_counterexample :
    parse_bounds_list (some (pys "-180 -90 5")) =
      .ok [some (.int (-180)), some (.int (-90)), some (.int 5)] ∧
    parse_wgs84_bounding_box (some (XmlElem.mk (pys "WGS84BoundingBox") [] none
      [XmlElem.mk (pys "LowerCorner") [] (some (pys "-180 -90 5")) [],
       XmlElem.mk (pys "UpperCorner") [] (some (pys "180 90 6")) []])) =
      .ok (some
        (Axis.mk (some (pys "Lon")) (some (.int (-180))) (some (.int 180))
          (some (pys "EPSG:4326")) none none none,
         Axis.mk (some (pys "Lat")) (some (.int (-90))) (some (.int 90))
          (some (pys "EPSG:4326")) none none none)) :=
  ⟨by decide, by decide⟩

/-- C6 (amended): `parse_wgs84_bounding_box` delegates to
`parse_bounding_box` with the forced CRS `EPSG:4326`; when the delegate
returns exactly 2 axes they are named `Lon`/`Lat` by position and returned,
and when it returns any other number of axes (i.e. when either corner has
fewer than 2 bounds, since surplus bounds beyond the 2-element per-axis CRS
list are dropped) the parser raises. -/
theorem C6_wgs84_amended (e : XmlElem) (bbox : BoundingBox)
    (htag : parse_tag_name e = pys "WGS84BoundingBox")
    (hbb : parse_bounding_box (some e) (some (pys "EPSG:4326")) = .ok (some bbox)) :
    (∀ a0 a1, bbox.axes = [a0, a1] →
      parse_wgs84_bounding_box (some e) =
        .ok (some ({a0 with name := some (pys "Lon")},
                   {a1 with name := some (pys "Lat")}))) ∧
    (bbox.axes.length ≠ 2 →
      parse_wgs84_bounding_box (some e) = .error (.wcsException
        (pys "Expected a WGS84BoundingBox element bounds " ++
         pys "for lon/lat axes, but got " ++ natRepr bbox.axes.length ++
         pys " bounds"))) := by
  constructor
  · intro a0 a1 hax
    simp only [parse_wgs84_bounding_box, validate_tag_name, htag, if_pos,
      Bind.bind, Except.bind, hbb, hax]
  · intro hlen
    match hax : bbox.axes with
    | [] =>
      simp only [parse_wgs84_bounding_box, validate_tag_name, htag, if_pos,
        Bind.bind, Except.bind, hbb, hax]
    | [a] =>
      simp only [parse_wgs84_bounding_box, validate_tag_name, htag, if_pos,
        Bind.bind, Except.bind, hbb, hax]
    | [a, b] => rw [hax] at hlen; simp at hlen
    | a :: b :: c :: rest =>
      simp only [parse_wgs84_bounding_box, validate_tag_name, htag, if_pos,
        Bind.bind, Except.bind, hbb, hax]

/-- C6 witness: the amended theorem applied to the 2-bound element of the
test suite. -/
theorem C6_witness :
    parse_wgs84_bounding_box (some (XmlElem.mk (pys "WGS84BoundingBox") [] none
      [XmlElem.mk (pys "LowerCorner") [] (some (pys "-180 -90")) [],
       XmlElem.mk (pys "UpperCorner") [] (some (pys "180 90")) []])) =
      .ok (some
        (Axis.mk (some (pys "Lon")) (some (.int (-180))) (some (.int 180))
          (some (pys "EPSG:4326")) none none none,
         Axis.mk (some (pys "Lat")) (some (.int (-90))) (some (.int 90))
          (some (pys "EPSG:4326")) none none none)) :=
  (C6_wgs84_amended
    (XmlElem.mk (pys "WGS84BoundingBox") [] none
      [XmlElem.mk (pys "LowerCorner") [] (some (pys "-180 -90")) [],
       XmlElem.mk (pys "UpperCorner") [] (some (pys "180 90")) []])
    ⟨[Axis.mk (some []) (some (.int (-180))) (some (.int 180))
        (some (pys "EPSG:4326")) none none none,
      Axis.mk (some []) (some (.int (-90))) (some (.int 90))
        (some (pys "EPSG:4326")) none none none], some (pys "EPSG:4326")⟩
    (by decide) (by decide)).1 _ _ rfl

/-! ### C9 -/

/-- Length of a three-way zip. -/
theorem zip3_length (a : List α) (b : List β) (c : List γ) :
    (zip3 a b c).length = min (min a.length b.length) c.length := by
  induction a generalizing b c with
  | nil => cases b <;> cases c <;> simp [zip3]
  | cons x xs ih =>
    cases b with
    | nil => cases c <;> simp [zip3]
    | cons y ys =>
      cases c with
      | nil => simp [zip3]
      | cons z zs =>
        simp [zip3, ih]
        omega

/-- C9: when both corners parse and the CRS resolves, `parse_bounding_box`
succeeds, producing exactly `min(len(lower), len(upper), len(per-axis CRSs))`
axes: the `zip` silently drops surplus bounds or CRS entries and no exception
is raised. -/
theorem C9_bbox_axes_min (e : XmlElem) (crsArg : Option PyStr)
    (ll ur : List (Option BoundType)) (crs : PyStr) (axisCrss : List PyStr)
    (hc : scanCorners e.children (none, none) = .ok (some ll, some ur))
    (hcrs : (match crsArg with
             | some c => some c
             | none => attrGet e (pys "crs")) = some crs)
    (hper : crs_to_crs_per_axis (some crs) = .ok axisCrss) :
    parse_bounding_box (some e) crsArg =
      .ok (some ⟨(zip3 ll ur axisCrss).map
        (fun t => Axis.mk (some []) t.1 t.2.1 (some t.2.2) none none none),
        some crs⟩) ∧
    ((zip3 ll ur axisCrss).map
        (fun t => Axis.mk (some []) t.1 t.2.1 (some t.2.2) none none none)).length =
      min (min ll.length ur.length) axisCrss.length := by
  constructor
  · simp only [parse_bounding_box, hc, Bind.bind, Except.bind, hcrs, hper]
  · simp [zip3_length]

/-- C9 witness: 3 lower bounds, 2 upper bounds and a 2-element per-axis CRS
list produce 2 axes without an exception. -/
theorem C9_witness :
    parse_bounding_box (some (XmlElem.mk (pys "BoundingBox")
        [(pys "crs", pys "EPSG:4326")] none
        [XmlElem.mk (pys "LowerCorner") [] (some (pys "1 2 3")) [],
         XmlElem.mk (pys "UpperCorner") [] (some (pys "4 5")) []])) none =
      .ok (some ⟨[Axis.mk (some []) (some (.int 1)) (some (.int 4))
                    (some (pys "EPSG:4326")) none none none,
                  Axis.mk (some []) (some (.int 2)) (some (.int 5))
                    (some (pys "EPSG:4326")) none none none],
                 some (pys "EPSG:4326")⟩) :=
  (C9_bbox_axes_min
    (XmlElem.mk (pys "BoundingBox") [(pys "crs", pys "EPSG:4326")] none
      [XmlElem.mk (pys "LowerCorner") [] (some (pys "1 2 3")) [],
       XmlElem.mk (pys "UpperCorner") [] (some (pys "4 5")) []]) none
    [some (.int 1), some (.int 2), some (.int 3)]
    [some (.int 4), some (.int 5)]
    (pys "EPSG:4326") [pys "EPSG:4326", pys "EPSG:4326"]
    (by decide) (by decide) (by decide)).1

/-! ### C4 -/

/-- Facts about decimal digit characters. -/
theorem digitChar_facts {d : Nat} (h : d < 10) :
    (digitChar d).isDigit = true ∧ isPySpace (digitChar d) = false ∧
    digitChar d ≠ '"' ∧ digitChar d ≠ '+' ∧ digitChar d ≠ '-' ∧
    digitChar d ≠ '_' ∧ (digitChar d).toNat = 48 + d := by
  interval_cases d <;>
    exact ⟨rfl, rfl, by decide, by decide, by decide, by decide, by decide⟩

/-- `natReprAux` produces a non-empty string of decimal digit characters. -/
theorem natReprAux_digits : ∀ fuel n, n < fuel →
    natReprAux fuel n ≠ [] ∧
    ∀ c ∈ natReprAux fuel n, ∃ d, d < 10 ∧ c = digitChar d := by
  intro fuel
  induction fuel with
  | zero => intro n h; omega
  | succ fuel ih =>
    intro n hn
    rw [natReprAux]
    by_cases h : n < 10
    · simp only [if_pos h]
      exact ⟨by simp, by intro c hc; simp at hc; exact ⟨n, h, hc⟩⟩
    · simp only [if_neg h]
      have hdiv : n / 10 < fuel := by
        have h1 : n / 10 < n := Nat.div_lt_self (by omega) (by omega)
        omega
      have hrec := ih (n / 10) hdiv
      refine ⟨by simp [hrec.1], ?_⟩
      intro c hc
      rcases List.mem_append.mp hc with h1 | h1
      · exact hrec.2 c h1
      · simp at h1
        exact ⟨n % 10, Nat.mod_lt _ (by omega), h1⟩

/-- Value of folding the digits of `natReprAux` onto an accumulator. -/
theorem natReprAux_foldl : ∀ fuel n acc, n < fuel →
    (natReprAux fuel n).foldl (fun a c => a * 10 + (c.toNat - 48)) acc =
      acc * 10 ^ (natReprAux fuel n).length + n := by
  intro fuel
  induction fuel with
  | zero => intro n acc h; omega
  | succ fuel ih =>
    intro n acc hn
    rw [natReprAux]
    by_cases h : n < 10
    · simp only [if_pos h, List.foldl_cons, List.foldl_nil, List.length_cons,
        List.length_nil, (digitChar_facts h).2.2.2.2.2.2]
      simp only [Nat.zero_add, pow_one]
      omega
    · simp only [if_neg h]
      rw [List.foldl_append]
      have hdiv : n / 10 < fuel := by
        have h1 : n / 10 < n := Nat.div_lt_self (by omega) (by omega)
        omega
      rw [ih (n / 10) acc hdiv]
      have hm : n % 10 < 10 := Nat.mod_lt _ (by omega)
      simp only [List.foldl_cons, List.foldl_nil, List.length_append,
        List.length_cons, List.length_nil, (digitChar_facts hm).2.2.2.2.2.2]
      have key : (acc * 10 ^ (natReprAux fuel (n / 10)).length + n / 10) * 10 +
          (48 + n % 10 - 48) =
          acc * (10 ^ (natReprAux fuel (n / 10)).length * 10) +
          (n / 10 * 10 + n % 10) := by
        ring_nf
        omega
      rw [key]
      have hdm : n / 10 * 10 + n % 10 = n := by omega
      rw [hdm, pow_succ]

/-- `natReprAux` has at most `k` digits when `n < 10 ^ k` (for `k ≥ 1`). -/
theorem natReprAux_length_le : ∀ fuel n k, n < fuel → n < 10 ^ k → 1 ≤ k →
    (natReprAux fuel n).length ≤ k := by
  intro fuel
  induction fuel with
  | zero => intro n k h; omega
  | succ fuel ih =>
    intro n k hn hk h1
    rw [natReprAux]
    by_cases h : n < 10
    · simp [if_pos h]
      omega
    · simp only [if_neg h, List.length_append, List.length_cons, List.length_nil]
      have hk2 : 2 ≤ k := by
        by_contra hcon
        have : k = 1 := by omega
        subst this
        simp [pow_one] at hk
        omega
      have hdiv : n / 10 < fuel := by
        have h1 : n / 10 < n := Nat.div_lt_self (by omega) (by omega)
        omega
      have hdivk : n / 10 < 10 ^ (k - 1) := by
        rw [Nat.div_lt_iff_lt_mul (by omega)]
        have : 10 ^ (k - 1) * 10 = 10 ^ k := by
          rw [← pow_succ]
          congr 1
          omega
        omega
      have := ih (n / 10) (k - 1) hdiv hdivk (by omega)
      omega

/-- `usDigitsAux` on a pure digit string folds up the decimal value. -/
theorem usDigitsAux_digits : ∀ (ds : PyStr) (acc : Nat),
    (∀ c ∈ ds, c.isDigit) →
    usDigitsAux ds acc =
      some (ds.foldl (fun a c => a * 10 + (c.toNat - 48)) acc) := by
  intro ds
  induction ds with
  | nil => intro acc _; simp [usDigitsAux]
  | cons c cs ih =>
    intro acc h
    have hc : c.isDigit := h c (by simp)
    have hcu : c ≠ '_' := by
      intro he
      rw [he] at hc
      simp [Char.isDigit] at hc
    rw [usDigitsAux.eq_def]
    split
    · rename_i heq
      exact absurd heq (by simp)
    · rename_i heq
      rw [List.cons.injEq] at heq
      exact absurd heq.1 hcu
    · rename_i heq
      rw [List.cons.injEq] at heq
      exact absurd heq.1 hcu
    · rename_i c' cs' d1 d2 heq
      rw [List.cons.injEq] at heq
      obtain ⟨h1, h2⟩ := heq
      subst h1 h2
      simp only [digitVal?, hc, ite_true, List.foldl_cons]
      exact ih _ (fun x hx => h x (by simp [hx]))

/-- Parsing back the decimal rendering of a natural number. -/
theorem usDigits_natRepr (n : Nat) : usDigits (natRepr n) = some n := by
  have hprops := natReprAux_digits (n + 1) n (by omega)
  unfold natRepr
  cases hrep : natReprAux (n + 1) n with
  | nil => exact absurd hrep hprops.1
  | cons c cs =>
    rw [hrep] at hprops
    obtain ⟨d, hd, hcd⟩ := hprops.2 c (by simp)
    have hcdig : c.isDigit := by rw [hcd]; exact (digitChar_facts hd).1
    have hfold := natReprAux_foldl (n + 1) n 0 (by omega)
    rw [hrep] at hfold
    simp only [List.foldl_cons, Nat.zero_mul, Nat.zero_add, zero_mul, zero_add] at hfold
    have hstep : usDigits (c :: cs) = usDigitsAux cs (c.toNat - 48) := by
      simp [usDigits, digitVal?, hcdig]
    rw [hstep, usDigitsAux_digits cs _ (fun x hx => by
      obtain ⟨d', hd', hxd⟩ := hprops.2 x (by simp [hx])
      rw [hxd]
      exact (digitChar_facts hd').1)]
    rw [hfold]

/-- Stripping a character class that occurs nowhere is the identity. -/
theorem pyStrip_id {p : Char → Bool} {s : PyStr} (h : ∀ c ∈ s, p c = false) :
    pyStrip p s = s := by
  have hl : pyLstrip p s = s := by
    cases s with
    | nil => rfl
    | cons c cs => simp [pyLstrip, List.dropWhile, h c (by simp)]
  unfold pyStrip pyRstrip
  rw [hl]
  cases hs : s.reverse with
  | nil => simp_all
  | cons c cs =>
    have hmem : c ∈ s := by
      have : c ∈ s.reverse := by rw [hs]; simp
      simpa using this
    rw [List.dropWhile_cons_of_neg (by simp [h c hmem])]
    rw [← hs]
    simp

/-- The decimal rendering of a small natural number parses back as that
integer through `parse_bound`. -/
theorem parse_bound_natRepr (n : Nat) (hn : n < 1000000) :
    parse_bound (some (natRepr n)) = .ok (some (.int n)) := by
  have hprops := natReprAux_digits (n + 1) n (by omega)
  have hdigs : ∀ c ∈ natRepr n, ∃ d, d < 10 ∧ c = digitChar d := hprops.2
  have hne : natRepr n ≠ [] := hprops.1
  have hstrip : pyStrip (· == '"') (natRepr n) = natRepr n := by
    apply pyStrip_id
    intro c hc
    obtain ⟨d, hd, hcd⟩ := hdigs c hc
    rw [hcd]
    simp [(digitChar_facts hd).2.2.1]
  have hlen : (natRepr n).length < 7 := by
    have := natReprAux_length_le (n + 1) n 6 (by omega) (by omega) (by omega)
    unfold natRepr
    omega
  have hiso : fromisoformat (natRepr n) = none := by
    unfold fromisoformat
    rw [if_pos hlen]
  have hws : pyStripWs (natRepr n) = natRepr n := by
    apply pyStrip_id
    intro c hc
    obtain ⟨d, hd, hcd⟩ := hdigs c hc
    rw [hcd]
    exact (digitChar_facts hd).2.1
  have hint : pyIntParse (natRepr n) = some (n : Int) := by
    rw [pyIntParse.eq_def, hws]
    cases hrep : natRepr n with
    | nil => exact absurd hrep hne
    | cons c cs =>
      obtain ⟨d, hd, hcd⟩ := hdigs c (by rw [hrep]; simp)
      split
      · rename_i heq
        rw [List.cons.injEq] at heq
        rw [hcd] at heq
        exact absurd heq.1 (digitChar_facts hd).2.2.2.1
      · rename_i heq
        rw [List.cons.injEq] at heq
        rw [hcd] at heq
        exact absurd heq.1 (digitChar_facts hd).2.2.2.2.1
      · rw [← hrep, usDigits_natRepr n]
        rfl
  have hquote : ¬((natRepr n).head? = some '"') := by
    cases hrep : natRepr n with
    | nil => simp
    | cons c cs =>
      obtain ⟨d, hd, hcd⟩ := hdigs c (by rw [hrep]; simp)
      simp only [List.head?_cons, Option.some.injEq]
      rw [hcd]
      exact (digitChar_facts hd).2.2.1
  simp only [parse_bound, hstrip, hiso, hint]
  rw [if_neg hquote]

/-- C4 counterexample: the round trip fails for integers whose rendering is
a valid `YYYYMMDD` date — `str(20231005)` parses as the timestamp 2023-10-05,
not as the integer 20231005. -/
theorem C4_counterexample :
    parse_bound (some (natRepr 20231005)) =
      .ok (some (.timestamp (PyDatetime.mk 2023 10 5 0 0 0 0 none))) ∧
    parse_bound (some (natRepr 20231005)) ≠ .ok (some (.int 20231005)) :=
  ⟨by decide, by decide⟩

/-- C4 (amended): the cited round trips hold — the quoted timestamp rendering
recovers the timestamp, "42" recovers the integer 42, "3.14" recovers the
real 3.14 — and integer round-tripping holds for every natural number below
1000000 (whose rendering is too short to be mistaken for a date); it fails in
general for integers whose rendering forms a valid ISO date, and plain
strings do not round trip at all. -/
theorem C4_round_trip_amended :
    parse_bound (some (pys "\"2023-10-05\"")) =
      .ok (some (.timestamp (PyDatetime.mk 2023 10 5 0 0 0 0 none))) ∧
    parse_bound (some (pys "42")) = .ok (some (.int 42)) ∧
    (∃ q : ℚ, parse_bound (some (pys "3.14")) = .ok (some (.real (.finite q))) ∧
      q = 157 / 50) ∧
    ∀ n : Nat, n < 1000000 → parse_bound (some (natRepr n)) = .ok (some (.int n)) := by
  refine ⟨by decide, by decide, ⟨_, rfl, ?_⟩, parse_bound_natRepr⟩
  have h3 : digitsToNat ['3'] = 3 := by decide
  have h14 : digitsToNat ['1', '4'] = 14 := by decide
  simp only [h3, h14, List.length_cons, List.length_nil]
  norm_num

/-- C4 witness: the amended round trip applied at 314159. -/
theorem C4_witness :
    parse_bound (some (natRepr 314159)) = .ok (some (.int 314159)) :=
  C4_round_trip_amended.2.2.2 314159 (by omega)

/-! ### C5 -/

/-- `mapM` over an attached list ignores the membership proofs. -/
theorem mapM_subtype_val {α β ε : Type} {P : α → Prop}
    (l : List {x // P x}) (f : α → Except ε β) :
    l.mapM (fun v => f v.1) = (l.map Subtype.val).mapM f := by
  induction l with
  | nil => rfl
  | cons a t ih => rw [List.mapM_cons, List.map_cons, List.mapM_cons, ih]

/-- C5 counterexample: the code tests for the substring `/crs-compound`
(with a leading slash), not `crs-compound`; an identifier that contains
`crs-compound` but not `/crs-compound` falls through to the path branch and
yields None instead of the +-join of its shortened sub-CRSs. -/
theorem C5_counterexample :
    toShortNotation (some (pys "crs-compound?1=x/y/z")) = .ok none ∧
    toShortNotation (some (pys "crs-compound?1=x/y/z")) ≠
      .ok (some (pys "x:y:z")) := by
  constructor
  · show toShortNotationAux (pys "crs-compound?1=x/y/z") = .ok none
    rw [toShortNotationAux.eq_def]
    decide
  · show toShortNotationAux (pys "crs-compound?1=x/y/z") ≠
      .ok (some (pys "x:y:z"))
    rw [toShortNotationAux.eq_def]
    decide

/-- C5 (amended): `to_short_notation` of None is None; an identifier with no
slash is returned unchanged; an identifier containing `/crs-compound` (with
the leading slash) whose sub-CRS values each shorten successfully yields
their +-join in query-parameter order, and raises TypeError if any sub-CRS
shortens to None; otherwise the last three path segments render as
`authority:code` when the version segment is "0" and
`authority:version:code` otherwise, with None when at most two segments are
available. -/
theorem C5_short_notation_amended :
    toShortNotation none = .ok none ∧
    (∀ url : PyStr, url.contains '/' = false →
      toShortNotation (some url) = .ok (some url)) ∧
    (∀ url sr parts, url.contains '/' = true →
      pyUrlsplit url = .ok sr →
      containsSub (pys "/crs-compound") url = true →
      (qsValues sr.query).mapM toShortNotationAux = .ok parts →
      toShortNotation (some url) =
        if parts.all Option.isSome then
          .ok (some (List.intercalate (pys "+")
            (parts.map (fun o => o.getD []))))
        else .error .typeError) ∧
    (∀ url sr, url.contains '/' = true →
      pyUrlsplit url = .ok sr →
      containsSub (pys "/crs-compound") url = false →
      toShortNotation (some url) =
        (let parts := splitOnChar '/' (pyStrip (· == '/') (urlparsePath sr))
         if parts.length > 2 then
           if parts.getD (parts.length - 2) [] = ['0'] then
             .ok (some (parts.getD (parts.length - 3) [] ++ ':' ::
               parts.getD (parts.length - 1) []))
           else
             .ok (some (parts.getD (parts.length - 3) [] ++ ':' ::
               parts.getD (parts.length - 2) [] ++ ':' ::
               parts.getD (parts.length - 1) []))
         else .ok none)) := by
  refine ⟨rfl, ?_, ?_, ?_⟩
  · intro url h
    have hcond : ¬ (url.contains '/' = true) := by rw [h]; simp
    show toShortNotationAux url = _
    rw [toShortNotationAux.eq_def, if_pos hcond]
  · intro url sr parts hslash hsp hcomp hparts
    have hcond : ¬ ¬ (url.contains '/' = true) := by rw [hslash]; simp
    show toShortNotationAux url = _
    rw [toShortNotationAux.eq_def, if_neg hcond]
    split
    · rename_i e heq
      rw [hsp] at heq
      simp at heq
    · rename_i sr' heq
      rw [hsp] at heq
      injection heq with h'
      subst h'
      have hat : (qsValues sr.query).attach.mapM
          (fun v => toShortNotationAux v.1) = .ok parts := by
        rw [mapM_subtype_val, List.attach_map_subtype_val]
        exact hparts
      simp only [hcomp, if_true]
      rw [hat]
  · intro url sr hslash hsp hcomp
    have hcond : ¬ ¬ (url.contains '/' = true) := by rw [hslash]; simp
    show toShortNotationAux url = _
    rw [toShortNotationAux.eq_def, if_neg hcond]
    split
    · rename_i e heq
      rw [hsp] at heq
      simp at heq
    · rename_i sr' heq
      rw [hsp] at heq
      injection heq with h'
      subst h'
      simp only [hcomp, Bool.false_eq_true, if_false]

/-- C5 witness: the amended branches applied to a compound identifier with
two sub-CRSs and to a slash-free identifier. -/
theorem C5_witness :
    toShortNotation (some (pys "/crs-compound?1=a/0/b&2=c")) =
      .ok (some (pys "a:b+c")) ∧
    toShortNotation (some (pys "EPSG:4326")) = .ok (some (pys "EPSG:4326")) := by
  constructor
  · have h1 : toShortNotationAux (pys "a/0/b") = .ok (some (pys "a:b")) := by
      rw [toShortNotationAux.eq_def]
      decide
    have h2 : toShortNotationAux (pys "c") = .ok (some (pys "c")) := by
      rw [toShortNotationAux.eq_def]
      decide
    have hsp : pyUrlsplit (pys "/crs-compound?1=a/0/b&2=c") =
        .ok ⟨[], [], pys "/crs-compound", pys "1=a/0/b&2=c", []⟩ := by decide
    have hq : qsValues (pys "1=a/0/b&2=c") = [pys "a/0/b", pys "c"] := by decide
    have hm : (qsValues (SplitResult.mk [] [] (pys "/crs-compound")
        (pys "1=a/0/b&2=c") []).query).mapM toShortNotationAux =
        .ok [some (pys "a:b"), some (pys "c")] := by
      show (qsValues (pys "1=a/0/b&2=c")).mapM toShortNotationAux = _
      rw [hq, List.mapM_cons, h1, List.mapM_cons, h2, List.mapM_nil]
      rfl
    have h := C5_short_notation_amended.2.2.1
      (pys "/crs-compound?1=a/0/b&2=c") _ _ (by decide) hsp (by decide) hm
    rw [h]
    decide
  · exact C5_short_notation_amended.2.1 (pys "EPSG:4326") (by decide)

/-! ### C10 -/

/-- Comparing two int bounds compares the integers (python compares int and
float values exactly, so on two ints this is exact integer comparison). -/
theorem pyLeOpt_int (a b : Int) :
    pyLeOpt (some (.int a)) (some (.int b)) = .ok (decide (a ≤ b)) := by
  show Except.ok (decide ((a : ℚ) ≤ (b : ℚ))) = Except.ok (decide (a ≤ b))
  congr 1
  exact decide_eq_decide.mpr Int.cast_le

/-- Adding two int bounds is exact integer addition (python int `+`). -/
theorem pyAddOpt_int (a b : Int) :
    pyAddOpt (some (.int a)) (some (.int b)) = .ok (.int (a + b)) := rfl

/-- The generating loop on an integer axis with positive resolution
terminates within `K + 1` iterations, where `K` is the step count at which
the value first exceeds `high`, and produces the exact arithmetic
progression of the first `K` values. -/
theorem genLoop_int_pos : ∀ (K fuel : Nat) (c hi r : Int),
    hi < c + K * r →
    (∀ k : Nat, k < K → c + k * r ≤ hi) →
    K < fuel →
    ∃ out : List (Option BoundType),
      genLoop fuel (some (.int c)) (some (.int hi)) (some (.int r)) =
        some (.ok out) ∧
      out.length = K ∧
      ∀ i, ∀ h : i < out.length, out.get ⟨i, h⟩ = some (.int (c + i * r)) := by
  intro K
  induction K with
  | zero =>
    intro fuel c hi r hlt _ hfuel
    have hlt' : hi < c := by push_cast at hlt; omega
    cases fuel with
    | zero => omega
    | succ fuel =>
      refine ⟨[], ?_, rfl, fun i h => absurd h (by simp)⟩
      rw [genLoop, pyLeOpt_int, decide_eq_false (not_le.mpr hlt')]
  | succ K ih =>
    intro fuel c hi r hlt hle hfuel
    cases fuel with
    | zero => omega
    | succ fuel =>
      have hc0 : c ≤ hi := by
        have := hle 0 (by omega)
        push_cast at this
        omega
      have hlt' : hi < (c + r) + K * r := by push_cast at hlt ⊢; linarith
      have hle' : ∀ k : Nat, k < K → (c + r) + k * r ≤ hi := by
        intro k hk
        have := hle (k + 1) (by omega)
        push_cast at this ⊢
        linarith
      obtain ⟨out, hout, hlen, hvals⟩ :=
        ih fuel (c + r) hi r hlt' hle' (by omega)
      refine ⟨some (.int c) :: out, ?_, by simp [hlen], ?_⟩
      · rw [genLoop, pyLeOpt_int, decide_eq_true hc0, pyAddOpt_int]
        dsimp only
        rw [hout]
      · intro i h
        cases i with
        | zero =>
          have h0 : c + ((0 : ℕ) : Int) * r = c := by push_cast; ring
          show some (BoundType.int c) = some (.int (c + ((0 : ℕ) : Int) * r))
          rw [h0]
        | succ i =>
          have h' : i < out.length := by
            simp only [List.length_cons] at h
            omega
          have hv := hvals i h'
          show out.get ⟨i, h'⟩ = some (.int (c + ((i + 1 : ℕ) : Int) * r))
          rw [hv]
          have hc : c + r + (i : Int) * r = c + ((i + 1 : ℕ) : Int) * r := by
            push_cast
            ring
          rw [hc]

/-- The generating loop on an integer axis with nonpositive resolution and
ordered bounds never terminates: every fuel is exhausted. -/
theorem genLoop_int_nonpos : ∀ (fuel : Nat) (c hi r : Int),
    r ≤ 0 → c ≤ hi →
    genLoop fuel (some (.int c)) (some (.int hi)) (some (.int r)) = none := by
  intro fuel
  induction fuel with
  | zero => intros; rfl
  | succ fuel ih =>
    intro c hi r hrle hchi
    rw [genLoop, pyLeOpt_int, decide_eq_true hchi, pyAddOpt_int]
    dsimp only
    rw [ih (c + r) hi r hrle (by omega)]

/-- If the comparison stays true and the addition returns its left operand
unchanged (an IEEE fixed point such as 1e16 + 0.5 == 1e16), the generating
loop never terminates. -/
theorem genLoop_fixed (cb : BoundType) (hb rb : Option BoundType)
    (hle : pyLeOpt (some cb) hb = .ok true)
    (hadd : pyAddOpt (some cb) rb = .ok cb) :
    ∀ fuel, genLoop fuel (some cb) hb rb = none := by
  intro fuel
  induction fuel with
  | zero => rfl
  | succ fuel ih =>
    rw [genLoop, hle, hadd]
    dsimp only
    rw [ih]

/-- C10 counterexample: under IEEE binary64 arithmetic a positive float
resolution need not make the loop progress — 1e16 + 0.5 rounds back to 1e16
(the increment is a quarter of the 2.0 ulp at 1e16) — so for the axis
low = 1e16, high = 2e16, resolution = 0.5 the bounds are ordered and the
resolution positive, yet `current += resolution` is a fixed point and 100
iterations of fuel are exhausted without terminating, refuting the claim
that a positive resolution guarantees termination. -/
theorem C10_counterexample :
    (0 : ℚ) < mkRat 1 2 ∧
    (10000000000000000 : ℚ) ≤ (20000000000000000 : ℚ) ∧
    pyAddOpt (some (.real (.finite (10000000000000000 : ℚ))))
        (some (.real (.finite (mkRat 1 2)))) =
      .ok (.real (.finite (10000000000000000 : ℚ))) ∧
    pyLeOpt (some (.real (.finite (10000000000000000 : ℚ))))
        (some (.real (.finite (20000000000000000 : ℚ)))) = .ok true ∧
    (Axis.mk none (some (.real (.finite (10000000000000000 : ℚ))))
        (some (.real (.finite (20000000000000000 : ℚ)))) none none
        (some (.real (.finite (mkRat 1 2)))) none).getCoefficients 100 =
      none :=
  ⟨by decide, by decide, by decide, by decide, by decide⟩

/-- C10 (amended): over exact python int arithmetic (integer low, high and
resolution) the claimed behaviour holds — a positive resolution makes
`get_coefficients` terminate with exactly the values low, low+r, low+2r, …
that are ≤ high (index k is produced iff low + k·r ≤ high) and a
nonpositive resolution makes the generating loop run forever; over float
arithmetic positivity of the resolution is necessary but not sufficient for
termination: IEEE binary64 rounding can make `current += resolution` a
fixed point, as for low = 1e16, high = 2e16, resolution = 0.5, where the
loop diverges for every fuel. -/
theorem C10_coefficients_termination :
    (∀ (a : Axis) (lo hi r : Int),
      a.isIrregular = false →
      a.low = some (.int lo) → a.high = some (.int hi) →
      a.resolution = some (.int r) → lo ≤ hi →
      (0 < r → ∃ fuel out, a.getCoefficients fuel = some (.ok out) ∧
        (∀ k : Nat, k < out.length ↔ lo + k * r ≤ hi) ∧
        (∀ i, ∀ h : i < out.length,
          out.get ⟨i, h⟩ = some (.int (lo + i * r)))) ∧
      (r ≤ 0 → ∀ fuel, a.getCoefficients fuel = none)) ∧
    (∀ fuel, (Axis.mk none (some (.real (.finite (10000000000000000 : ℚ))))
        (some (.real (.finite (20000000000000000 : ℚ)))) none none
        (some (.real (.finite (mkRat 1 2)))) none).getCoefficients fuel =
      none) := by
  constructor
  · intro a lo hi r hirr hlow hhigh hres hlohi
    have hreg : a.isRegular = true := by simp [Axis.isRegular, hres]
    have hred : ∀ fuel, a.getCoefficients fuel =
        genLoop fuel (some (.int lo)) (some (.int hi)) (some (.int r)) := by
      intro fuel
      simp [Axis.getCoefficients, hirr, hreg, hlow, hhigh, hres]
    constructor
    · intro hrpos
      have hex : ∃ K : Nat, hi < lo + K * r := by
        refine ⟨(hi - lo).toNat + 1, ?_⟩
        push_cast
        have h1 : (1 : Int) ≤ r := hrpos
        have h2 : hi - lo ≤ ((hi - lo).toNat : Int) := by omega
        have h3 : ((hi - lo).toNat : Int) + 1 ≤
            (((hi - lo).toNat : Int) + 1) * r :=
          le_mul_of_one_le_right (by omega) h1
        linarith
      obtain ⟨out, hout, hlen, hvals⟩ :=
        genLoop_int_pos (Nat.find hex) (Nat.find hex + 1) lo hi r
          (Nat.find_spec hex)
          (fun k hk => not_lt.mp (Nat.find_min hex hk))
          (by omega)
      refine ⟨Nat.find hex + 1, out, by rw [hred]; exact hout, ?_, hvals⟩
      intro k
      rw [hlen]
      constructor
      · intro hk
        exact not_lt.mp (Nat.find_min hex hk)
      · intro hk
        by_contra hcon
        push_neg at hcon
        have hspec := Nat.find_spec hex
        have hcast : ((Nat.find hex : ℕ) : Int) ≤ (k : Int) := by
          exact_mod_cast hcon
        have hmul : ((Nat.find hex : ℕ) : Int) * r ≤ (k : Int) * r :=
          mul_le_mul_of_nonneg_right hcast (le_of_lt hrpos)
        linarith
    · intro hrle fuel
      rw [hred]
      exact genLoop_int_nonpos fuel lo hi r hrle hlohi
  · intro fuel
    show genLoop fuel (some (.real (.finite (10000000000000000 : ℚ))))
        (some (.real (.finite (20000000000000000 : ℚ))))
        (some (.real (.finite (mkRat 1 2)))) = none
    exact genLoop_fixed _ _ _ (by decide) (by decide) fuel

/-- C10 witness: the amended theorem applied to the integer axis 0..10 with
resolution 3 (terminates, four coefficients) and with resolution −1 (no
fuel suffices), and to the diverging float axis at fuel 1000. -/
theorem C10_witness :
    ((∃ fuel out, (Axis.mk none (some (.int 0)) (some (.int 10)) none none
        (some (.int 3)) none).getCoefficients fuel = some (.ok out) ∧
      (∀ k : Nat, k < out.length ↔ (0 : Int) + k * 3 ≤ 10) ∧
      (∀ i, ∀ h : i < out.length,
        out.get ⟨i, h⟩ = some (.int ((0 : Int) + i * 3)))) ∧
     (Axis.mk none (some (.int 0)) (some (.int 10)) none none
        (some (.int (-1))) none).getCoefficients 1000 = none) ∧
    (Axis.mk none (some (.real (.finite (10000000000000000 : ℚ))))
        (some (.real (.finite (20000000000000000 : ℚ)))) none none
        (some (.real (.finite (mkRat 1 2)))) none).getCoefficients 1000 =
      none := by
  refine ⟨⟨?_, ?_⟩, ?_⟩
  · exact (C10_coefficients_termination.1
      (Axis.mk none (some (.int 0)) (some (.int 10)) none none
        (some (.int 3)) none) 0 10 3 rfl rfl rfl rfl (by omega)).1 (by omega)
  · exact (C10_coefficients_termination.1
      (Axis.mk none (some (.int 0)) (some (.int 10)) none none
        (some (.int (-1))) none) 0 10 (-1) rfl rfl rfl rfl (by omega)).2
      (by omega) 1000
  · exact C10_coefficients_termination.2 1000

/-! ### C2 -/

/-- A successful `findIdx?` run from start index `s` points at an element
satisfying the predicate (stated over the accumulating start index). -/
theorem findIdx?_go_spec {α : Type} (p : α → Bool) : ∀ (l : List α) (s j : Nat),
    List.findIdx? p l s = some j →
    s ≤ j ∧ j - s < l.length ∧ ∃ x, l.get? (j - s) = some x ∧ p x = true := by
  intro l
  induction l with
  | nil => intro s j h; simp [List.findIdx?] at h
  | cons a t ih =>
    intro s j h
    rw [List.findIdx?] at h
    split at h
    · rename_i hpa
      simp only [Option.some.injEq] at h
      subst h
      exact ⟨le_refl _, by simp, a, by simp, hpa⟩
    · obtain ⟨hsj, hlt, x, hx, hpx⟩ := ih (s + 1) j h
      refine ⟨by omega, by simp only [List.length_cons]; omega, x, ?_, hpx⟩
      cases hjs : j - s with
      | zero => omega
      | succ k =>
        have hk : j - (s + 1) = k := by omega
        rw [hk] at hx
        simpa using hx

/-- A failed `findIdx?` means no element satisfies the predicate. -/
theorem findIdx?_go_none {α : Type} (p : α → Bool) : ∀ (l : List α) (s : Nat),
    List.findIdx? p l s = none → ∀ x ∈ l, p x = false := by
  intro l
  induction l with
  | nil => intro _ _ x hx; simp at hx
  | cons a t ih =>
    intro s h x hx
    rw [List.findIdx?] at h
    split at h
    · simp at h
    · rename_i hpa
      rcases List.mem_cons.mp hx with rfl | hx'
      · simpa using hpa
      · exact ih (s + 1) h x hx'

/-- A name found by `nameToIndex` sits at the reported position. -/
theorem nameToIndex_get {labels : List PyStr} {s : PyStr} {i : Nat}
    (h : nameToIndex labels (some s) = some i) :
    labels.get? i = some s := by
  simp only [nameToIndex] at h
  rcases hf : labels.reverse.findIdx? (fun l => decide (l = s)) with _ | j
  · rw [hf] at h; simp at h
  · rw [hf] at h
    simp at h
    obtain ⟨-, hlt0, x, hx, hpx⟩ := findIdx?_go_spec _ _ _ _ hf
    simp only [Nat.sub_zero] at hlt0 hx
    have hxs : x = s := by simpa using hpx
    subst hxs
    have hlt : j < labels.length := by
      rw [List.length_reverse] at hlt0
      exact hlt0
    have hrev := List.getElem?_reverse hlt
    rw [List.get?_eq_getElem? ] at hx
    rw [← h, List.get?_eq_getElem? , ← hrev]
    exact hx

/-- Distinct names found at the same position are equal. -/
theorem nameToIndex_inj {labels : List PyStr} {s t : PyStr} {i : Nat}
    (hs : nameToIndex labels (some s) = some i)
    (ht : nameToIndex labels (some t) = some i) : s = t := by
  have h1 := nameToIndex_get hs
  have h2 := nameToIndex_get ht
  rw [h1] at h2
  injection h2

/-- A name occurring among the labels has an index. -/
theorem nameToIndex_isSome {labels : List PyStr} {n : PyStr} (h : n ∈ labels) :
    (nameToIndex labels (some n)).isSome := by
  simp only [nameToIndex]
  rcases hf : labels.reverse.findIdx? (fun l => decide (l = n)) with _ | j
  · exfalso
    have := findIdx?_go_none _ _ _ hf n (by simpa using h)
    simp at this
  · simp

/-- On axes whose names all have an index, the keying `mapM` of
`parse_domain_set` succeeds and pairs each axis with its label index. -/
theorem mapM_keyOf (labels : List PyStr) : ∀ (l : List Axis),
    (∀ a ∈ l, (nameToIndex labels a.name).isSome) →
    l.mapM (keyOf labels) =
      .ok (l.map (fun a => ((nameToIndex labels a.name).getD 0, a))) := by
  intro l
  induction l with
  | nil => intro _; rfl
  | cons a t ih =>
    intro h
    obtain ⟨i, hi⟩ := Option.isSome_iff_exists.mp (h a (by simp))
    rw [List.mapM_cons, ih (fun b hb => h b (by simp [hb]))]
    simp [keyOf, hi]
    rfl

/-- Inserting into a keyed list permutes consing it on. -/
theorem insertKeyed_perm (x : Nat × Axis) : ∀ l,
    List.Perm (insertKeyed x l) (x :: l) := by
  intro l
  induction l with
  | nil => exact List.Perm.refl _
  | cons y ys ih =>
    rw [insertKeyed]
    split
    · exact List.Perm.refl _
    · exact List.Perm.trans (List.Perm.cons y ih) (List.Perm.swap x y ys)

/-- The stable sort permutes its input. -/
theorem sortKeyed_perm (l : List (Nat × Axis)) : List.Perm (sortKeyed l) l := by
  induction l with
  | nil => exact List.Perm.refl _
  | cons x xs ih =>
    exact List.Perm.trans (insertKeyed_perm x _) (List.Perm.cons x ih)

/-- Insertion preserves key-sortedness. -/
theorem insertKeyed_pairwise (x : Nat × Axis) : ∀ l,
    l.Pairwise (fun p q => p.1 ≤ q.1) →
    (insertKeyed x l).Pairwise (fun p q => p.1 ≤ q.1) := by
  intro l
  induction l with
  | nil => intro _; simp [insertKeyed]
  | cons y ys ih =>
    intro h
    rw [insertKeyed]
    split
    · rename_i hle
      refine List.Pairwise.cons ?_ h
      intro z hz
      rcases List.mem_cons.mp hz with rfl | hz'
      · exact hle
      · exact le_trans hle (List.rel_of_pairwise_cons h hz')
    · rename_i hgt
      have hyx : y.1 ≤ x.1 := le_of_lt (not_le.mp hgt)
      rw [List.pairwise_cons] at h
      refine List.Pairwise.cons ?_ (ih h.2)
      intro z hz
      rcases List.mem_cons.mp ((insertKeyed_perm x ys).mem_iff.mp hz) with rfl | hz'
      · exact hyx
      · exact h.1 z hz'

/-- The stable sort produces a key-sorted list. -/
theorem sortKeyed_pairwise (l : List (Nat × Axis)) :
    (sortKeyed l).Pairwise (fun p q => p.1 ≤ q.1) := by
  induction l with
  | nil => simp [sortKeyed]
  | cons x xs ih => exact insertKeyed_pairwise x _ ih

/-- The CRS assignment loop preserves the axis names. -/
theorem setCrsZip_map_name : ∀ (as : List Axis) (cs : List PyStr),
    (setCrsZip as cs).map Axis.name = as.map Axis.name := by
  intro as
  induction as with
  | nil => intro cs; cases cs <;> rfl
  | cons a t ih =>
    intro cs
    cases cs with
    | nil => rfl
    | cons c cs' => simp only [setCrsZip, List.map_cons, ih]

/-- Bind on a successful `Except` value applies the continuation. -/
theorem exceptBind_ok {ε α β : Type} (a : α) (f : α → Except ε β) :
    (Except.ok a >>= f : Except ε β) = f a := rfl

/-- The CRS assignment loop assigns the i-th CRS to the i-th axis. -/
theorem setCrsZip_get_crs : ∀ (as : List Axis) (cs : List PyStr) (i : Nat)
    (h : i < (setCrsZip as cs).length) (h2 : i < cs.length),
    ((setCrsZip as cs).get ⟨i, h⟩).crs = some (cs.get ⟨i, h2⟩) := by
  intro as
  induction as with
  | nil =>
    intro cs i h h2
    cases cs with
    | nil => simp [setCrsZip] at h
    | cons c cs' => simp [setCrsZip] at h
  | cons a t ih =>
    intro cs i h h2
    cases cs with
    | nil => simp at h2
    | cons c cs' =>
      cases i with
      | zero => rfl
      | succ i =>
        simp only [setCrsZip, List.length_cons] at h
        simp only [List.length_cons] at h2
        exact ih cs' i (by omega) (by omega)

/-- C2: when the GeneralGrid carries an axisLabels attribute and every
collected geo axis is named by one of its labels, `parse_domain_set`
reorders the collected geo axes into strictly increasing axisLabels
position (a permutation of the document-order axes, independent of it) and
assigns the i-th per-axis CRS of `crs_to_crs_per_axis(srsName)` to the i-th
reordered axis; when axisLabels is absent it raises the dedicated
WCSClientException. -/
theorem C2_domain_set_axis_order :
    (∀ (e gg : XmlElem) (labelsStr : PyStr) (geoAxes gridAxes : List Axis)
      (crsper : List PyStr),
      parse_tag_name e = pys "DomainSet" →
      e.children.head? = some gg →
      parse_tag_name gg = pys "GeneralGrid" →
      axesLoop gg.children = .ok (geoAxes, gridAxes) →
      attrGet gg (pys "axisLabels") = some labelsStr →
      crs_to_crs_per_axis (attrGet gg (pys "srsName")) = .ok crsper →
      (∀ a ∈ geoAxes, ∃ n, a.name = some n ∧ n ∈ pySplitWs labelsStr) →
      (geoAxes.map Axis.name).Nodup →
      ∃ sortedGeo : List Axis,
        parse_domain_set (some e) =
          .ok (some ⟨setCrsZip sortedGeo crsper, attrGet gg (pys "srsName")⟩,
               some ⟨gridAxes, none⟩) ∧
        List.Perm sortedGeo geoAxes ∧
        sortedGeo.Pairwise (fun a b =>
          (nameToIndex (pySplitWs labelsStr) a.name).getD 0 <
          (nameToIndex (pySplitWs labelsStr) b.name).getD 0) ∧
        (setCrsZip sortedGeo crsper).map Axis.name = sortedGeo.map Axis.name ∧
        ∀ i, ∀ h : i < (setCrsZip sortedGeo crsper).length,
          ∀ h2 : i < crsper.length,
          ((setCrsZip sortedGeo crsper).get ⟨i, h⟩).crs =
            some (crsper.get ⟨i, h2⟩)) ∧
    (∀ (e gg : XmlElem) (acc : List Axis × List Axis),
      parse_tag_name e = pys "DomainSet" →
      e.children.head? = some gg →
      parse_tag_name gg = pys "GeneralGrid" →
      axesLoop gg.children = .ok acc →
      attrGet gg (pys "axisLabels") = none →
      parse_domain_set (some e) = .error (.wcsException
        (pys "GeneralGrid element missing axisLabels attribute."))) := by
  have hfc_gen : ∀ (e gg : XmlElem), e.children.head? = some gg →
      parse_tag_name gg = pys "GeneralGrid" →
      first_child e (some (pys "GeneralGrid")) = .ok gg := by
    intro e gg hchild hggtag
    obtain ⟨rest, hch⟩ : ∃ rest, e.children = gg :: rest := by
      cases hc : e.children with
      | nil => rw [hc] at hchild; simp at hchild
      | cons c cs =>
        rw [hc] at hchild
        simp at hchild
        exact ⟨cs, by rw [hchild]⟩
    have hvgg : validate_tag_name gg (pys "GeneralGrid") = .ok () := by
      rw [validate_tag_name, if_pos hggtag]
    simp only [first_child, hch, hvgg]
    rfl
  constructor
  · intro e gg labelsStr geoAxes gridAxes crsper htag hchild hggtag haxes hlab
      hcrs hnames hnodupA
    have hsome : ∀ a ∈ geoAxes,
        (nameToIndex (pySplitWs labelsStr) a.name).isSome := by
      intro a ha
      obtain ⟨n, hn, hmem⟩ := hnames a ha
      rw [hn]
      exact nameToIndex_isSome hmem
    have hmapM := mapM_keyOf (pySplitWs labelsStr) geoAxes hsome
    have hval : validate_tag_name e (pys "DomainSet") = .ok () := by
      rw [validate_tag_name, if_pos htag]
    have hfc := hfc_gen e gg hchild hggtag
    have hperm := sortKeyed_perm (geoAxes.map (fun a =>
      ((nameToIndex (pySplitWs labelsStr) a.name).getD 0, a)))
    refine ⟨(sortKeyed (geoAxes.map (fun a =>
        ((nameToIndex (pySplitWs labelsStr) a.name).getD 0, a)))).map (·.2),
      ?_, ?_, ?_, setCrsZip_map_name _ _,
      fun i h h2 => setCrsZip_get_crs _ _ i h h2⟩
    · simp only [parse_domain_set, hval, exceptBind_ok, hfc, haxes, hlab,
        hmapM, hcrs]
    · have hpm := hperm.map (·.2)
      have hfun : ((fun x : Nat × Axis => x.2) ∘ fun a : Axis =>
          ((nameToIndex (pySplitWs labelsStr) a.name).getD 0, a)) = id := by
        funext a
        rfl
      rw [List.map_map, hfun, List.map_id] at hpm
      exact hpm
    · rw [List.pairwise_map]
      have hsorted := sortKeyed_pairwise (geoAxes.map (fun a =>
        ((nameToIndex (pySplitWs labelsStr) a.name).getD 0, a)))
      have hmem : ∀ p ∈ sortKeyed (geoAxes.map (fun a =>
          ((nameToIndex (pySplitWs labelsStr) a.name).getD 0, a))),
          ∃ a ∈ geoAxes,
            p = ((nameToIndex (pySplitWs labelsStr) a.name).getD 0, a) := by
        intro p hp
        have := hperm.mem_iff.mp hp
        simp only [List.mem_map] at this
        obtain ⟨a, ha, hpa⟩ := this
        exact ⟨a, ha, hpa.symm⟩
      have hnodupS : ((sortKeyed (geoAxes.map (fun a =>
          ((nameToIndex (pySplitWs labelsStr) a.name).getD 0, a)))).map
            (fun p => p.2.name)).Nodup := by
        refine (List.Perm.nodup_iff (List.Perm.map _ hperm)).mpr ?_
        rw [List.map_map]
        simpa [Function.comp] using hnodupA
      have hne : (sortKeyed (geoAxes.map (fun a =>
          ((nameToIndex (pySplitWs labelsStr) a.name).getD 0, a)))).Pairwise
            (fun x y => x.2.name ≠ y.2.name) :=
        List.pairwise_map.mp hnodupS
      refine (List.Pairwise.and hsorted hne).imp_of_mem ?_
      intro a b ha hb hab
      obtain ⟨hle', hne'⟩ := hab
      obtain ⟨xa, hxa, hpa⟩ := hmem a ha
      obtain ⟨xb, hxb, hpb⟩ := hmem b hb
      obtain ⟨na, hna, hmema⟩ := hnames xa hxa
      obtain ⟨nb, hnb, hmemb⟩ := hnames xb hxb
      obtain ⟨ia, hia⟩ :=
        Option.isSome_iff_exists.mp (nameToIndex_isSome hmema)
      obtain ⟨ib, hib⟩ :=
        Option.isSome_iff_exists.mp (nameToIndex_isSome hmemb)
      subst hpa hpb
      dsimp only at hle' hne' ⊢
      rw [hna, hia] at hle' ⊢
      rw [hnb, hib] at hle' ⊢
      simp only [Option.getD_some] at hle' ⊢
      rcases lt_or_eq_of_le hle' with hlt | heq
      · exact hlt
      · exfalso
        have hnn : na = nb := nameToIndex_inj hia (by rw [heq]; exact hib)
        exact hne' (by rw [hna, hnb, hnn])
  · intro e gg acc htag hchild hggtag haxes hlab
    have hval : validate_tag_name e (pys "DomainSet") = .ok () := by
      rw [validate_tag_name, if_pos htag]
    have hfc := hfc_gen e gg hchild hggtag
    simp only [parse_domain_set, hval, exceptBind_ok, hfc, haxes, hlab]

/-- C2 witness: a DomainSet whose RegularAxis children appear in document
order Lat, Lon while axisLabels says "Lon Lat"; the geo axes come back in
axisLabels order with the EPSG CRS assigned to both. -/
theorem C2_witness :
    ∃ sortedGeo : List Axis,
      parse_domain_set (some (XmlElem.mk (pys "DomainSet") [] none
        [XmlElem.mk (pys "GeneralGrid")
          [(pys "srsName", pys "EPSG:4326"), (pys "axisLabels", pys "Lon Lat")]
          none
          [XmlElem.mk (pys "RegularAxis")
            [(pys "axisLabel", pys "Lat"), (pys "lowerBound", pys "0"),
             (pys "upperBound", pys "10"), (pys "resolution", pys "r")]
            none [],
           XmlElem.mk (pys "RegularAxis")
            [(pys "axisLabel", pys "Lon"), (pys "lowerBound", pys "20"),
             (pys "upperBound", pys "30"), (pys "resolution", pys "s")]
            none []]])) =
        .ok (some ⟨setCrsZip sortedGeo [pys "EPSG:4326", pys "EPSG:4326"],
              some (pys "EPSG:4326")⟩,
             some ⟨[], none⟩) ∧
      List.Perm sortedGeo
        [Axis.mk (some (pys "Lat")) (some (.int 0)) (some (.int 10)) none none
          (some (.str (pys "r"))) none,
         Axis.mk (some (pys "Lon")) (some (.int 20)) (some (.int 30)) none none
          (some (.str (pys "s"))) none] ∧
      sortedGeo.Pairwise (fun a b =>
        (nameToIndex (pySplitWs (pys "Lon Lat")) a.name).getD 0 <
        (nameToIndex (pySplitWs (pys "Lon Lat")) b.name).getD 0) ∧
      (setCrsZip sortedGeo [pys "EPSG:4326", pys "EPSG:4326"]).map Axis.name =
        sortedGeo.map Axis.name ∧
      ∀ i, ∀ h :
          i < (setCrsZip sortedGeo [pys "EPSG:4326", pys "EPSG:4326"]).length,
        ∀ h2 : i < ([pys "EPSG:4326", pys "EPSG:4326"] : List PyStr).length,
        ((setCrsZip sortedGeo
            [pys "EPSG:4326", pys "EPSG:4326"]).get ⟨i, h⟩).crs =
          some (([pys "EPSG:4326", pys "EPSG:4326"] : List PyStr).get
            ⟨i, h2⟩) := by
  exact C2_domain_set_axis_order.1
    (XmlElem.mk (pys "DomainSet") [] none
      [XmlElem.mk (pys "GeneralGrid")
        [(pys "srsName", pys "EPSG:4326"), (pys "axisLabels", pys "Lon Lat")]
        none
        [XmlElem.mk (pys "RegularAxis")
          [(pys "axisLabel", pys "Lat"), (pys "lowerBound", pys "0"),
           (pys "upperBound", pys "10"), (pys "resolution", pys "r")]
          none [],
         XmlElem.mk (pys "RegularAxis")
          [(pys "axisLabel", pys "Lon"), (pys "lowerBound", pys "20"),
           (pys "upperBound", pys "30"), (pys "resolution", pys "s")]
          none []]])
    (XmlElem.mk (pys "GeneralGrid")
      [(pys "srsName", pys "EPSG:4326"), (pys "axisLabels", pys "Lon Lat")]
      none
      [XmlElem.mk (pys "RegularAxis")
        [(pys "axisLabel", pys "Lat"), (pys "lowerBound", pys "0"),
         (pys "upperBound", pys "10"), (pys "resolution", pys "r")]
        none [],
       XmlElem.mk (pys "RegularAxis")
        [(pys "axisLabel", pys "Lon"), (pys "lowerBound", pys "20"),
         (pys "upperBound", pys "30"), (pys "resolution", pys "s")]
        none []])
    (pys "Lon Lat")
    [Axis.mk (some (pys "Lat")) (some (.int 0)) (some (.int 10)) none none
      (some (.str (pys "r"))) none,
     Axis.mk (some (pys "Lon")) (some (.int 20)) (some (.int 30)) none none
      (some (.str (pys "s"))) none]
    []
    [pys "EPSG:4326", pys "EPSG:4326"]
    (by decide) rfl (by decide) (by decide) (by decide) (by decide)
    (by
      intro a ha
      rcases List.mem_cons.mp ha with rfl | ha'
      · exact ⟨pys "Lat", rfl, by decide⟩
      · rcases List.mem_cons.mp ha' with rfl | ha''
        · exact ⟨pys "Lon", rfl, by decide⟩
        · simp at ha'')
    (by decide)

end Wcs




